import Mathlib

/-!
Verification of the typed document-mapping layer (`couchdb/schema.py`).

The Python source is shallowly embedded: Python strings are `List Char`,
JSON-compatible raw values are the inductive `Raw`, Python runtime values the
inductive `PyVal`, and every fallible operation returns `Except PyErr`.
Object identity (the aliasing contract of `Schema.wrap`/`unwrap` and the
shared mutable defaults of `ListField`/`DictField`) is modelled with an
explicit heap of objects addressed by natural-number references.
-/

/-- Python strings are modelled as lists of characters. -/
abbrev LChar := List Char

/-- The character for a decimal digit value (meaningful for `k < 10`). -/
def dChar (k : Nat) : Char := Char.ofNat (48 + k)

/-- The numeric value of a decimal digit character. -/
def dVal (c : Char) : Nat := c.toNat - 48

/-- Every character of the string is an ASCII digit. -/
def allDigits (s : LChar) : Bool := s.all Char.isDigit

/-- The usual decimal numeral of a natural number, most significant digit
first, as produced by Python's `%d` formatting. -/
def natChars (n : Nat) : LChar :=
  if h : n < 10 then [dChar n]
  else natChars (n / 10) ++ [dChar (n % 10)]
termination_by n
decreasing_by exact Nat.div_lt_self (by omega) (by omega)

/-- Accumulate the numeric value of a digit string, left to right. -/
def parseNatDigits (s : LChar) : Nat := s.foldl (fun a c => a * 10 + dVal c) 0

/-- Python's `%02d` formatting, restricted to `n ≤ 99` (the only inputs the
source ever feeds it: month, day, hour, minute, second). -/
def pad2 (n : Nat) : LChar := [dChar (n / 10), dChar (n % 10)]

/-- Python's `%04d` formatting, restricted to `n ≤ 9999` (years; `datetime`
enforces `1 ≤ year ≤ 9999`). -/
def pad4 (n : Nat) : LChar :=
  [dChar (n / 1000), dChar (n / 100 % 10), dChar (n / 10 % 10), dChar (n % 10)]

/-- Split a string at every occurrence of the character `c`, like Python's
`str.split` with a one-character separator. -/
def splitOnChar (c : Char) : LChar → List LChar
  | [] => [[]]
  | x :: xs =>
    if x = c then [] :: splitOnChar c xs
    else
      match splitOnChar c xs with
      | r :: rs => (x :: r) :: rs
      | [] => [[x]]

/-- Python's `value.split('.', 1)[0]`: everything before the first dot. -/
def takeUntilDot (s : LChar) : LChar := s.takeWhile (fun c => c ≠ '.')

/-- Python's `value.rstrip('Z')`: drop every trailing `Z`. -/
def rstripZ (s : LChar) : LChar := (s.reverse.dropWhile (fun c => c = 'Z')).reverse

theorem dVal_dChar {k : Nat} (h : k < 10) : dVal (dChar k) = k := by
  interval_cases k <;> decide

theorem dChar_isDigit {k : Nat} (h : k < 10) : (dChar k).isDigit = true := by
  interval_cases k <;> decide

/-- Digit characters are none of the punctuation characters appearing in the
scalar wire encodings. -/
theorem dChar_notSpecial {k : Nat} (h : k < 10) :
    dChar k ∉ (['.', 'E', 'e', '-', '+', 'Z', 'T', ':'] : List Char) := by
  interval_cases k <;> decide

theorem dChar_ne_of_special {k : Nat} {c : Char} (h : k < 10)
    (hc : c ∈ (['.', 'E', 'e', '-', '+', 'Z', 'T', ':'] : List Char)) :
    dChar k ≠ c := by
  intro he; exact dChar_notSpecial h (he ▸ hc)

theorem parseNatDigits_append (s : LChar) (c : Char) :
    parseNatDigits (s ++ [c]) = parseNatDigits s * 10 + dVal c := by
  simp [parseNatDigits, List.foldl_append]

theorem parseNatDigits_natChars (n : Nat) : parseNatDigits (natChars n) = n := by
  induction n using Nat.strong_induction_on with
  | _ n ih =>
    rw [natChars]
    by_cases h : n < 10
    · simp only [h, dif_pos]
      simp [parseNatDigits, dVal_dChar h]
    · simp only [h, dif_neg, not_false_iff]
      rw [parseNatDigits_append, ih (n / 10) (Nat.div_lt_self (by omega) (by omega)),
        dVal_dChar (Nat.mod_lt n (by omega))]
      omega

theorem allDigits_natChars (n : Nat) : allDigits (natChars n) = true := by
  induction n using Nat.strong_induction_on with
  | _ n ih =>
    rw [natChars]
    by_cases h : n < 10
    · simp only [h, dif_pos]
      simp [allDigits, dChar_isDigit h]
    · simp only [h, dif_neg, not_false_iff]
      have h1 := ih (n / 10) (Nat.div_lt_self (by omega) (by omega))
      simp only [allDigits, List.all_append, List.all_cons, List.all_nil] at h1 ⊢
      simp [h1, dChar_isDigit (Nat.mod_lt n (by omega))]

theorem splitOnChar_not_mem {c : Char} {s : LChar} (h : c ∉ s) :
    splitOnChar c s = [s] := by
  induction s with
  | nil => rfl
  | cons x xs ih =>
    simp only [List.mem_cons, not_or] at h
    rw [splitOnChar, if_neg (fun he => h.1 he.symm), ih h.2]

theorem splitOnChar_append {c : Char} {s1 : LChar} (s2 : LChar) (h : c ∉ s1) :
    splitOnChar c (s1 ++ c :: s2) = s1 :: splitOnChar c s2 := by
  induction s1 with
  | nil => simp [splitOnChar]
  | cons x xs ih =>
    simp only [List.mem_cons, not_or] at h
    have h2 := ih h.2
    rw [List.cons_append, splitOnChar, if_neg (fun he => h.1 he.symm), h2]

theorem takeUntilDot_no_dot {s : LChar} (h : '.' ∉ s) : takeUntilDot s = s := by
  unfold takeUntilDot
  induction s with
  | nil => rfl
  | cons x xs ih =>
    simp only [List.mem_cons, not_or] at h
    rw [List.takeWhile_cons]
    simp only [decide_eq_true_eq]
    rw [if_pos (fun he => h.1 he.symm), ih h.2]

theorem dropWhile_eq_self_of_head {p : Char → Bool} {x : Char} {t : LChar}
    (h : p x = false) : List.dropWhile p (x :: t) = x :: t := by
  rw [List.dropWhile_cons, h]
  simp

theorem rstripZ_snoc_Z {pre : LChar} {c : Char} (hc : c ≠ 'Z') :
    rstripZ ((pre ++ [c]) ++ ['Z']) = pre ++ [c] := by
  unfold rstripZ
  rw [List.reverse_append, List.reverse_append]
  simp only [List.reverse_cons, List.reverse_nil, List.nil_append, List.singleton_append,
    List.dropWhile_cons]
  have hZ : (('Z' : Char) = 'Z') = True := by simp
  simp only [decide_eq_true_eq, hZ, if_true]
  rw [if_neg hc]
  simp

/-- JSON-compatible raw values: the wire representation stored by the
document store (`null`, booleans, numbers, strings, sequences, mappings). -/
inductive Raw where
  | null
  | bool (b : Bool)
  | int (n : Int)
  | float (f : Float)
  | str (s : LChar)
  | list (xs : List Raw)
  | dict (kvs : List (LChar × Raw))

/-- A raw document: the ordered string-keyed mapping backing a record. -/
abbrev RawDoc := List (LChar × Raw)

/-- The value of Python's `datetime.date`. -/
structure PyDate where
  year : Nat
  month : Nat
  day : Nat

/-- The value of Python's `datetime.time`. -/
structure PyTime where
  hour : Nat
  minute : Nat
  second : Nat
  microsecond : Nat

/-- The value of Python's `datetime.datetime` (naive, as the source uses). -/
structure PyDateTime where
  year : Nat
  month : Nat
  day : Nat
  hour : Nat
  minute : Nat
  second : Nat
  microsecond : Nat

/-- The first six fields of Python's `time.struct_time`, the ones
`calendar.timegm` consumes. -/
structure PyStructTime where
  year : Nat
  month : Nat
  day : Nat
  hour : Nat
  minute : Nat
  second : Nat

/-- The value of Python's `decimal.Decimal`: a sign, a nonempty tuple of
coefficient digits (most significant first), and an exponent. -/
structure PyDecimal where
  sign : Bool
  digits : List Nat
  exp : Int

/-- Python runtime values, covering the types the schema layer handles. -/
inductive PyVal where
  | none
  | bool (b : Bool)
  | int (n : Int)
  | float (f : Float)
  | str (s : LChar)
  | decimal (d : PyDecimal)
  | date (d : PyDate)
  | datetime (x : PyDateTime)
  | time (t : PyTime)
  | structTime (t : PyStructTime)
  | list (xs : List PyVal)
  | dict (kvs : List (LChar × PyVal))

/-- Exceptions raised by the embedded fragment.  The three `invalid*`
constructors carry the string interpolated into the `ValueError` message
(`'Invalid ISO date %r' % lit` and so on); `idAlreadySet` is the
`AttributeError('id can only be set on new documents')`; `nameErrorItem` is
the `NameError` for the unbound name `item`; `pyValueError` is a
`ValueError` escaping a constructor uncaught; `notModeled` marks branches
outside the fragment exercised by the verified claims. -/
inductive PyErr where
  | invalidDate (lit : LChar)
  | invalidDateTime (lit : LChar)
  | invalidTime (lit : LChar)
  | invalidDecimal (lit : LChar)
  | idAlreadySet
  | nameErrorItem
  | pyValueError
  | notModeled

/-- Lookup in a Python dict modelled as an ordered association list
(`d.get(k)` / `d[k]`, as an `Option`). -/
def dictGet {κ α : Type} [DecidableEq κ] (k : κ) : List (κ × α) → Option α
  | [] => Option.none
  | (k0, v) :: rest => if k0 = k then some v else dictGet k rest

/-- Assignment in a Python dict modelled as an ordered association list
(`d[k] = v`: replace in place, else append). -/
def dictSet {κ α : Type} [DecidableEq κ] (k : κ) (v : α) : List (κ × α) → List (κ × α)
  | [] => [(k, v)]
  | (k0, v0) :: rest => if k0 = k then (k, v) :: rest else (k0, v0) :: dictSet k v rest

/-- Python's `d.get(k)` on a raw document, where both a missing key and a
stored `null` surface as `None`. -/
def pyGetRaw (d : RawDoc) (k : LChar) : Raw := (dictGet k d).getD Raw.null

theorem dictGet_dictSet_self {κ α : Type} [DecidableEq κ] (k : κ) (v : α)
    (l : List (κ × α)) : dictGet k (dictSet k v l) = some v := by
  induction l with
  | nil => simp [dictGet, dictSet]
  | cons p rest ih =>
    obtain ⟨k0, v0⟩ := p
    by_cases h : k0 = k
    · simp [dictSet, h, dictGet]
    · simp [dictSet, h, dictGet, ih]

theorem dictGet_dictSet_ne {κ α : Type} [DecidableEq κ] {k k1 : κ} (v : α)
    (l : List (κ × α)) (h : k1 ≠ k) : dictGet k (dictSet k1 v l) = dictGet k l := by
  induction l with
  | nil => simp [dictGet, dictSet, h]
  | cons p rest ih =>
    obtain ⟨k0, v0⟩ := p
    by_cases h0 : k0 = k1
    · subst h0
      simp [dictSet, dictGet, h]
    · by_cases h2 : k0 = k
      · subst h2
        simp [dictSet, h0, dictGet]
      · simp [dictSet, h0, dictGet, h2, ih]

/-- Gregorian leap-year test, as in Python's `calendar`. -/
def isLeap (y : Nat) : Bool := (y % 4 = 0 && y % 100 != 0) || y % 400 = 0

/-- Days in a month (month given 1-based). -/
def daysInMonth (y m : Nat) : Nat :=
  if m = 2 then (if isLeap y then 29 else 28)
  else if m = 4 ∨ m = 6 ∨ m = 9 ∨ m = 11 then 30
  else 31

/-- Validity of a `datetime.date` value (the constructor's own checks). -/
def PyDate.Valid (d : PyDate) : Prop :=
  1 ≤ d.year ∧ d.year ≤ 9999 ∧ 1 ≤ d.month ∧ d.month ≤ 12 ∧
    1 ≤ d.day ∧ d.day ≤ daysInMonth d.year d.month

/-- Validity of a `datetime.time` value. -/
def PyTime.Valid (t : PyTime) : Prop :=
  t.hour ≤ 23 ∧ t.minute ≤ 59 ∧ t.second ≤ 59 ∧ t.microsecond < 1000000

/-- Validity of a `datetime.datetime` value. -/
def PyDateTime.Valid (x : PyDateTime) : Prop :=
  1 ≤ x.year ∧ x.year ≤ 9999 ∧ 1 ≤ x.month ∧ x.month ≤ 12 ∧
    1 ≤ x.day ∧ x.day ≤ daysInMonth x.year x.month ∧
    x.hour ≤ 23 ∧ x.minute ≤ 59 ∧ x.second ≤ 59 ∧ x.microsecond < 1000000

/-- A `struct_time` whose six leading fields already form a valid calendar
date and time of day. -/
def PyStructTime.Valid (t : PyStructTime) : Prop :=
  1 ≤ t.year ∧ t.year ≤ 9999 ∧ 1 ≤ t.month ∧ t.month ≤ 12 ∧
    1 ≤ t.day ∧ t.day ≤ daysInMonth t.year t.month ∧
    t.hour ≤ 23 ∧ t.minute ≤ 59 ∧ t.second ≤ 59

/-- The composition `datetime.utcfromtimestamp(calendar.timegm(...))` used by
`DateTimeField`, on the domain delivered by `strptime` and `timegm`
(`1 ≤ m ≤ 12`, `1 ≤ d ≤ 31`, `h ≤ 23`, `mi ≤ 59`, `s ≤ 61`): `timegm`
linearises `(y, m, d, h, mi, s)` into seconds from the epoch without
validating day or second, so out-of-range seconds and day-of-month overflow
carry into the larger units; converting back yields the normalised calendar
date.  On that domain at most one month boundary is crossed, which this
closed form realises. -/
def epochNorm (y m d h mi s : Nat) : PyDateTime :=
  let s2 := s % 60
  let mi1 := mi + s / 60
  let mi2 := mi1 % 60
  let h1 := h + mi1 / 60
  let h2 := h1 % 24
  let d1 := d + h1 / 24
  if d1 ≤ daysInMonth y m then ⟨y, m, d1, h2, mi2, s2, 0⟩
  else if m = 12 then ⟨y + 1, 1, d1 - daysInMonth y m, h2, mi2, s2, 0⟩
  else ⟨y, m + 1, d1 - daysInMonth y m, h2, mi2, s2, 0⟩

/-- On fields already in calendar range the epoch round trip is the
identity. -/
theorem epochNorm_valid {y m d h mi s : Nat} (hd : d ≤ daysInMonth y m)
    (hh : h ≤ 23) (hmi : mi ≤ 59) (hs : s ≤ 59) :
    epochNorm y m d h mi s = ⟨y, m, d, h, mi, s, 0⟩ := by
  unfold epochNorm
  have hA : s / 60 = 0 := Nat.div_eq_of_lt (by omega)
  have hB : s % 60 = s := Nat.mod_eq_of_lt (by omega)
  have hC : mi / 60 = 0 := Nat.div_eq_of_lt (by omega)
  have hD : mi % 60 = mi := Nat.mod_eq_of_lt (by omega)
  have hE : h / 24 = 0 := Nat.div_eq_of_lt (by omega)
  have hF : h % 24 = h := Nat.mod_eq_of_lt (by omega)
  simp only [hA, hB, Nat.add_zero, hC, hD, hE, hF]
  rw [if_pos hd]

/-- The full set of punctuation characters used by the wire encodings. -/
def specialChars : List Char := ['.', 'E', 'e', '-', '+', 'Z', 'T', ':']

/-- Membership in `pad2 n` forces a digit character (for `n ≤ 99`). -/
theorem not_special_mem_pad2 {c : Char} {n : Nat} (h : n ≤ 99)
    (hc : c ∈ specialChars) : c ∉ pad2 n := by
  intro hm
  simp only [pad2, List.mem_cons, List.not_mem_nil, or_false] at hm
  rcases hm with h1 | h1
  · exact dChar_ne_of_special (by omega) hc h1.symm
  · exact dChar_ne_of_special (Nat.mod_lt _ (by omega)) hc h1.symm

/-- Membership in `pad4 n` forces a digit character (for `n ≤ 9999`). -/
theorem not_special_mem_pad4 {c : Char} {n : Nat} (h : n ≤ 9999)
    (hc : c ∈ specialChars) : c ∉ pad4 n := by
  intro hm
  simp only [pad4, List.mem_cons, List.not_mem_nil, or_false] at hm
  rcases hm with h1 | h1 | h1 | h1
  · exact dChar_ne_of_special (by omega) hc h1.symm
  · exact dChar_ne_of_special (Nat.mod_lt _ (by omega)) hc h1.symm
  · exact dChar_ne_of_special (Nat.mod_lt _ (by omega)) hc h1.symm
  · exact dChar_ne_of_special (Nat.mod_lt _ (by omega)) hc h1.symm

theorem allDigits_pad2 {n : Nat} (h : n ≤ 99) : allDigits (pad2 n) = true := by
  simp [allDigits, pad2, dChar_isDigit (show n / 10 < 10 by omega),
    dChar_isDigit (Nat.mod_lt n (by omega))]

theorem allDigits_pad4 {n : Nat} (h : n ≤ 9999) : allDigits (pad4 n) = true := by
  simp [allDigits, pad4, dChar_isDigit (show n / 1000 < 10 by omega),
    dChar_isDigit (Nat.mod_lt (n / 100) (by omega)),
    dChar_isDigit (Nat.mod_lt (n / 10) (by omega)),
    dChar_isDigit (Nat.mod_lt n (by omega))]

theorem parseNatDigits_pad2 {n : Nat} (h : n ≤ 99) : parseNatDigits (pad2 n) = n := by
  show (0 * 10 + dVal (dChar (n / 10))) * 10 + dVal (dChar (n % 10)) = n
  rw [dVal_dChar (show n / 10 < 10 by omega), dVal_dChar (Nat.mod_lt n (by omega))]
  omega

theorem parseNatDigits_pad4 {n : Nat} (h : n ≤ 9999) : parseNatDigits (pad4 n) = n := by
  show (((0 * 10 + dVal (dChar (n / 1000))) * 10 + dVal (dChar (n / 100 % 10))) * 10
      + dVal (dChar (n / 10 % 10))) * 10 + dVal (dChar (n % 10)) = n
  rw [dVal_dChar (show n / 1000 < 10 by omega), dVal_dChar (Nat.mod_lt (n / 100) (by omega)),
    dVal_dChar (Nat.mod_lt (n / 10) (by omega)), dVal_dChar (Nat.mod_lt n (by omega))]
  omega

/-- The `date.isoformat()` encoding `YYYY-MM-DD`. -/
def fmtDate (y m d : Nat) : LChar := pad4 y ++ '-' :: (pad2 m ++ '-' :: pad2 d)

/-- The `HH:MM:SS` time-of-day encoding. -/
def fmtHMS (h mi s : Nat) : LChar := pad2 h ++ ':' :: (pad2 mi ++ ':' :: pad2 s)

/-- The `datetime.isoformat()` encoding `YYYY-MM-DDTHH:MM:SS` (microsecond
already zero). -/
def fmtDT (y m d h mi s : Nat) : LChar := fmtDate y m d ++ 'T' :: fmtHMS h mi s

/-- One one-or-two-digit numeric component of an `strptime` format, with the
range its regular expression enforces (`%m`, `%d`, `%H`, `%M`, `%S`). -/
def parseComp2 (lo hi : Nat) (s : LChar) : Option Nat :=
  if s ≠ [] ∧ s.length ≤ 2 ∧ allDigits s then
    let v := parseNatDigits s
    if lo ≤ v ∧ v ≤ hi then some v else Option.none
  else Option.none

/-- The `%Y` component of an `strptime` format: exactly four digits. -/
def parseYear4 (s : LChar) : Option Nat :=
  if s.length = 4 ∧ allDigits s then some (parseNatDigits s) else Option.none

/-- `strptime(value, '%Y-%m-%d')`, returning the numeric fields. -/
def parseYMD (s : LChar) : Option (Nat × Nat × Nat) :=
  match splitOnChar '-' s with
  | [ys, ms, ds] =>
    match parseYear4 ys, parseComp2 1 12 ms, parseComp2 1 31 ds with
    | some y, some m, some d => some (y, m, d)
    | _, _, _ => Option.none
  | _ => Option.none

/-- `strptime(value, '%H:%M:%S')[3:6]`: hour, minute, second with the
`strptime` ranges (`%S` admits leap seconds up to 61). -/
def parseHMS (s : LChar) : Option (Nat × Nat × Nat) :=
  match splitOnChar ':' s with
  | [hs, ms, ss] =>
    match parseComp2 0 23 hs, parseComp2 0 59 ms, parseComp2 0 61 ss with
    | some h, some mi, some sec => some (h, mi, sec)
    | _, _, _ => Option.none
  | _ => Option.none

/-- `strptime(value, '%Y-%m-%dT%H:%M:%S')`, returning the six numeric
fields. -/
def parseYMDHMS (s : LChar) : Option (Nat × Nat × Nat × Nat × Nat × Nat) :=
  match splitOnChar 'T' s with
  | [ds, ts] =>
    match parseYMD ds, parseHMS ts with
    | some (y, m, d), some (h, mi, sec) => some (y, m, d, h, mi, sec)
    | _, _ => Option.none
  | _ => Option.none

theorem parseComp2_pad2 {lo hi n : Nat} (h99 : n ≤ 99) (hlo : lo ≤ n) (hhi : n ≤ hi) :
    parseComp2 lo hi (pad2 n) = some n := by
  unfold parseComp2
  rw [if_pos ⟨by simp [pad2], by simp [pad2], allDigits_pad2 h99⟩]
  simp only [parseNatDigits_pad2 h99]
  rw [if_pos ⟨hlo, hhi⟩]

theorem parseYear4_pad4 {n : Nat} (h : n ≤ 9999) : parseYear4 (pad4 n) = some n := by
  unfold parseYear4
  rw [if_pos ⟨by simp [pad4], allDigits_pad4 h⟩, parseNatDigits_pad4 h]

theorem parseYMD_fmtDate {y m d : Nat} (hy : y ≤ 9999) (hm1 : 1 ≤ m) (hm : m ≤ 12)
    (hd1 : 1 ≤ d) (hd : d ≤ 31) : parseYMD (fmtDate y m d) = some (y, m, d) := by
  unfold parseYMD fmtDate
  rw [splitOnChar_append _ (not_special_mem_pad4 hy (by decide)),
    splitOnChar_append _ (not_special_mem_pad2 (by omega) (by decide)),
    splitOnChar_not_mem (not_special_mem_pad2 (by omega) (by decide))]
  simp only [parseYear4_pad4 hy, parseComp2_pad2 (by omega) hm1 hm,
    parseComp2_pad2 (by omega) hd1 hd]

theorem parseHMS_fmtHMS {h mi s : Nat} (hh : h ≤ 23) (hmi : mi ≤ 59) (hs : s ≤ 61) :
    parseHMS (fmtHMS h mi s) = some (h, mi, s) := by
  unfold parseHMS fmtHMS
  rw [splitOnChar_append _ (not_special_mem_pad2 (by omega) (by decide)),
    splitOnChar_append _ (not_special_mem_pad2 (by omega) (by decide)),
    splitOnChar_not_mem (not_special_mem_pad2 (by omega) (by decide))]
  simp only [parseComp2_pad2 (by omega) (Nat.zero_le h) hh,
    parseComp2_pad2 (by omega) (Nat.zero_le mi) hmi,
    parseComp2_pad2 (by omega) (Nat.zero_le s) hs]

theorem not_T_mem_fmtDate {y m d : Nat} (hy : y ≤ 9999) (hm : m ≤ 99) (hd : d ≤ 99) :
    'T' ∉ fmtDate y m d := by
  intro hmem
  unfold fmtDate at hmem
  simp only [List.mem_append, List.mem_cons] at hmem
  rcases hmem with h1 | h1 | h1 | h1 | h1
  · exact not_special_mem_pad4 hy (by decide) h1
  · exact absurd h1 (by decide)
  · exact not_special_mem_pad2 hm (by decide) h1
  · exact absurd h1 (by decide)
  · exact not_special_mem_pad2 hd (by decide) h1

theorem parseYMDHMS_fmtDT {y m d h mi s : Nat} (hy : y ≤ 9999) (hm1 : 1 ≤ m)
    (hm : m ≤ 12) (hd1 : 1 ≤ d) (hd : d ≤ 31) (hh : h ≤ 23) (hmi : mi ≤ 59)
    (hs : s ≤ 61) : parseYMDHMS (fmtDT y m d h mi s) = some (y, m, d, h, mi, s) := by
  unfold parseYMDHMS fmtDT
  rw [splitOnChar_append _ (not_T_mem_fmtDate hy (by omega) (by omega))]
  have hTn : 'T' ∉ fmtHMS h mi s := by
    intro hmem
    unfold fmtHMS at hmem
    simp only [List.mem_append, List.mem_cons] at hmem
    rcases hmem with h1 | h1 | h1 | h1 | h1
    · exact not_special_mem_pad2 (by omega) (by decide) h1
    · exact absurd h1 (by decide)
    · exact not_special_mem_pad2 (by omega) (by decide) h1
    · exact absurd h1 (by decide)
    · exact not_special_mem_pad2 (by omega) (by decide) h1
  rw [splitOnChar_not_mem hTn]
  simp only [parseYMD_fmtDate hy hm1 hm hd1 hd, parseHMS_fmtHMS hh hmi hs]


theorem all_pad2 (p : Char → Bool) {n : Nat} (h : n ≤ 99)
    (hp : ∀ k, k < 10 → p (dChar k) = true) : (pad2 n).all p = true := by
  simp [pad2, hp _ (show n / 10 < 10 by omega), hp _ (Nat.mod_lt n (by omega))]

theorem all_pad4 (p : Char → Bool) {n : Nat} (h : n ≤ 9999)
    (hp : ∀ k, k < 10 → p (dChar k) = true) : (pad4 n).all p = true := by
  simp [pad4, hp _ (show n / 1000 < 10 by omega), hp _ (Nat.mod_lt (n / 100) (by omega)),
    hp _ (Nat.mod_lt (n / 10) (by omega)), hp _ (Nat.mod_lt n (by omega))]

theorem takeUntilDot_of_all {s : LChar} (h : s.all (fun c => c != '.') = true) :
    takeUntilDot s = s := by
  apply takeUntilDot_no_dot
  intro hmem
  have := List.all_eq_true.mp h _ hmem
  simp at this

theorem dChar_bne_dot {k : Nat} (h : k < 10) : (dChar k != '.') = true := by
  interval_cases k <;> decide

theorem daysInMonth_le_31 (y m : Nat) : daysInMonth y m ≤ 31 := by
  unfold daysInMonth
  split
  · split <;> omega
  · split <;> omega

/-- The serialised date-time carries no dot, so microsecond stripping leaves
it unchanged. -/
theorem takeUntilDot_fmtDT_Z {y m d h mi s : Nat} (hy : y ≤ 9999) (hm : m ≤ 99)
    (hd : d ≤ 99) (hh : h ≤ 99) (hmi : mi ≤ 99) (hs : s ≤ 99) :
    takeUntilDot (fmtDT y m d h mi s ++ ['Z']) = fmtDT y m d h mi s ++ ['Z'] := by
  apply takeUntilDot_of_all
  simp only [fmtDT, fmtDate, fmtHMS, List.all_append, List.all_cons,
    all_pad4 (fun c => c != '.') hy (fun k hk => dChar_bne_dot hk),
    all_pad2 (fun c => c != '.') hm (fun k hk => dChar_bne_dot hk),
    all_pad2 (fun c => c != '.') hd (fun k hk => dChar_bne_dot hk),
    all_pad2 (fun c => c != '.') hh (fun k hk => dChar_bne_dot hk),
    all_pad2 (fun c => c != '.') hmi (fun k hk => dChar_bne_dot hk),
    all_pad2 (fun c => c != '.') hs (fun k hk => dChar_bne_dot hk)]
  decide

/-- The serialised date-time ends in a digit, so stripping the appended `Z`
recovers it exactly. -/
theorem rstripZ_fmtDT_Z (y m d h mi s : Nat) :
    rstripZ (fmtDT y m d h mi s ++ ['Z']) = fmtDT y m d h mi s := by
  have hsnoc : fmtDT y m d h mi s =
      (fmtDate y m d ++ 'T' :: (pad2 h ++ ':' :: (pad2 mi ++ ':' :: [dChar (s / 10)])))
        ++ [dChar (s % 10)] := by
    simp [fmtDT, fmtHMS, pad2]
  rw [hsnoc, rstripZ_snoc_Z (dChar_ne_of_special (Nat.mod_lt s (by omega)) (by decide))]

/-- `DateField._to_python` on a raw string: `strptime('%Y-%m-%d')` followed by
the `date` constructor; any `ValueError` is re-raised as
`ValueError('Invalid ISO date %r' % value)` with the unmodified literal. -/
def dateFromString (s : LChar) : Except PyErr PyDate :=
  match parseYMD s with
  | some (y, m, d) =>
    if 1 ≤ y ∧ d ≤ daysInMonth y m then Except.ok ⟨y, m, d⟩
    else Except.error (PyErr.invalidDate s)
  | Option.none => Except.error (PyErr.invalidDate s)

/-- `DateTimeField._to_python` on a raw string: the literal is first
truncated at the first dot and stripped of trailing `Z`, then parsed with
`strptime('%Y-%m-%dT%H:%M:%S')` and normalised through
`utcfromtimestamp(timegm(...))`; any `ValueError` is re-raised as
`ValueError('Invalid ISO date/time %r' % value)` where `value` is the
already-preprocessed literal. -/
def dateTimeFromString (s : LChar) : Except PyErr PyDateTime :=
  match parseYMDHMS (rstripZ (takeUntilDot s)) with
  | some (y, m, d, h, mi, sec) =>
    if 1 ≤ y then
      if (epochNorm y m d h mi sec).year ≤ 9999 then Except.ok (epochNorm y m d h mi sec)
      else Except.error (PyErr.invalidDateTime (rstripZ (takeUntilDot s)))
    else Except.error (PyErr.invalidDateTime (rstripZ (takeUntilDot s)))
  | Option.none => Except.error (PyErr.invalidDateTime (rstripZ (takeUntilDot s)))

/-- `TimeField._to_python` on a raw string: the literal is truncated at the
first dot, parsed with `strptime('%H:%M:%S')`, and passed to the `time`
constructor (which rejects leap seconds); any `ValueError` is re-raised as
`ValueError('Invalid ISO time %r' % value)` where `value` is the
dot-truncated literal. -/
def timeFromString (s : LChar) : Except PyErr PyTime :=
  match parseHMS (takeUntilDot s) with
  | some (h, mi, sec) =>
    if sec ≤ 59 then Except.ok ⟨h, mi, sec, 0⟩
    else Except.error (PyErr.invalidTime (takeUntilDot s))
  | Option.none => Except.error (PyErr.invalidTime (takeUntilDot s))

theorem dateFromString_fmtDate {y m d : Nat} (hy1 : 1 ≤ y) (hy : y ≤ 9999)
    (hm1 : 1 ≤ m) (hm : m ≤ 12) (hd1 : 1 ≤ d) (hd : d ≤ daysInMonth y m) :
    dateFromString (fmtDate y m d) = Except.ok ⟨y, m, d⟩ := by
  unfold dateFromString
  simp only [parseYMD_fmtDate hy hm1 hm hd1 (le_trans hd (daysInMonth_le_31 y m))]
  rw [if_pos ⟨hy1, hd⟩]

theorem dateTimeFromString_fmtDT {y m d h mi s : Nat} (hy1 : 1 ≤ y) (hy : y ≤ 9999)
    (hm1 : 1 ≤ m) (hm : m ≤ 12) (hd1 : 1 ≤ d) (hd : d ≤ daysInMonth y m)
    (hh : h ≤ 23) (hmi : mi ≤ 59) (hs : s ≤ 59) :
    dateTimeFromString (fmtDT y m d h mi s ++ ['Z']) =
      Except.ok ⟨y, m, d, h, mi, s, 0⟩ := by
  unfold dateTimeFromString
  have hd99 : d ≤ 99 := le_trans hd (le_trans (daysInMonth_le_31 y m) (by omega))
  rw [takeUntilDot_fmtDT_Z hy (by omega) hd99 (by omega) (by omega) (by omega),
    rstripZ_fmtDT_Z]
  simp only [parseYMDHMS_fmtDT hy hm1 hm hd1 (le_trans hd (daysInMonth_le_31 y m)) hh hmi
    (le_trans hs (by omega))]
  rw [epochNorm_valid hd hh hmi hs]
  simp [hy1, hy]

theorem timeFromString_fmtHMS {h mi s : Nat} (hh : h ≤ 23) (hmi : mi ≤ 59)
    (hs : s ≤ 59) : timeFromString (fmtHMS h mi s) = Except.ok ⟨h, mi, s, 0⟩ := by
  unfold timeFromString
  have hnd : takeUntilDot (fmtHMS h mi s) = fmtHMS h mi s := by
    apply takeUntilDot_of_all
    simp only [fmtHMS, List.all_append, List.all_cons,
      all_pad2 (fun c => c != '.') (show h ≤ 99 by omega) (fun k hk => dChar_bne_dot hk),
      all_pad2 (fun c => c != '.') (show mi ≤ 99 by omega) (fun k hk => dChar_bne_dot hk),
      all_pad2 (fun c => c != '.') (show s ≤ 99 by omega) (fun k hk => dChar_bne_dot hk)]
    decide
  rw [hnd]
  simp only [parseHMS_fmtHMS hh hmi (le_trans hs (by omega))]
  rw [if_pos hs]

/-- A failing date conversion reports exactly the stored literal. -/
theorem dateFromString_error {s : LChar} {e : PyErr}
    (h : dateFromString s = Except.error e) : e = PyErr.invalidDate s := by
  unfold dateFromString at h
  split at h
  · split at h
    · exact absurd h (by simp)
    · simpa using h.symm
  · simpa using h.symm

/-- A failing date-time conversion reports the literal after dot truncation
and `Z` stripping, not the stored literal. -/
theorem dateTimeFromString_error {s : LChar} {e : PyErr}
    (h : dateTimeFromString s = Except.error e) :
    e = PyErr.invalidDateTime (rstripZ (takeUntilDot s)) := by
  unfold dateTimeFromString at h
  split at h
  · split at h
    · split at h
      · exact absurd h (by simp)
      · simpa using h.symm
    · simpa using h.symm
  · simpa using h.symm

/-- A failing time conversion reports the literal after dot truncation. -/
theorem timeFromString_error {s : LChar} {e : PyErr}
    (h : timeFromString s = Except.error e) : e = PyErr.invalidTime (takeUntilDot s) := by
  unfold timeFromString at h
  split at h
  · split at h
    · exact absurd h (by simp)
    · simpa using h.symm
  · simpa using h.symm

/-- Well-formedness maintained by the `Decimal` constructor: at least one
coefficient digit, digits below ten, and no leading zero unless the
coefficient is the single digit 0. -/
def PyDecimal.WF (x : PyDecimal) : Prop :=
  x.digits ≠ [] ∧ (∀ k ∈ x.digits, k < 10) ∧ (∀ t, x.digits = 0 :: t → t = [])

/-- Python's `'%+d'` formatting of an integer: a mandatory sign then the
decimal numeral. -/
def intSignedChars (n : Int) : LChar :=
  if n < 0 then '-' :: natChars n.natAbs else '+' :: natChars n.natAbs

/-- The `dotplace` local of `Decimal.__str__`: where the point falls in the
digit string — the adjusted position `leftdigits` in plain notation (exponent
non-positive and adjusted exponent above -6), and 1 in scientific
notation. -/
def decDotplace (x : PyDecimal) : Int :=
  if x.exp ≤ 0 ∧ -6 < x.exp + x.digits.length then x.exp + x.digits.length else 1

/-- The `intpart`/`fracpart` assembly of `Decimal.__str__`: the digit string
with the point inserted at `dotplace`, zero-padded on whichever side needs
it. -/
def decBody (x : PyDecimal) : LChar :=
  if decDotplace x ≤ 0 then
    '0' :: '.' :: (List.replicate (-decDotplace x).toNat '0' ++ x.digits.map dChar)
  else if (x.digits.length : Int) ≤ decDotplace x then
    x.digits.map dChar ++ List.replicate (decDotplace x - x.digits.length).toNat '0'
  else
    (x.digits.map dChar).take (decDotplace x).toNat ++
      '.' :: (x.digits.map dChar).drop (decDotplace x).toNat

/-- The `exp` local of `Decimal.__str__`: empty when the adjusted position
equals `dotplace`, else `E%+d` of their difference. -/
def decExpPart (x : PyDecimal) : LChar :=
  if x.exp + x.digits.length = decDotplace x then []
  else 'E' :: intSignedChars (x.exp + x.digits.length - decDotplace x)

/-- `Decimal.__str__` (the to-scientific-string algorithm): sign prefix,
digit body, optional exponent suffix. -/
def decStr (x : PyDecimal) : LChar :=
  (if x.sign then ['-'] else []) ++ decBody x ++ decExpPart x

/-- Leading-zero stripping applied by the `Decimal` constructor to the
concatenated digit string (an all-zero string collapses to the digit 0). -/
def stripZeros (l : List Nat) : List Nat :=
  match l.dropWhile (fun k => k == 0) with
  | [] => [0]
  | r => r

/-- A leading optional sign, as the `Decimal` constructor's regular
expression consumes it. -/
def pySignSplit (s : LChar) : Bool × LChar :=
  match s with
  | [] => (false, [])
  | c :: r => if c = '-' then (true, r) else if c = '+' then (false, r) else (false, c :: r)

/-- An optionally signed integer literal (the exponent of a decimal
literal). -/
def parseSignedInt (s : LChar) : Option Int :=
  match s with
  | [] => Option.none
  | c :: r =>
    if c = '-' then
      if r ≠ [] ∧ allDigits r then some (-(parseNatDigits r : Int)) else Option.none
    else if c = '+' then
      if r ≠ [] ∧ allDigits r then some (parseNatDigits r : Int) else Option.none
    else if allDigits (c :: r) then some (parseNatDigits (c :: r) : Int)
    else Option.none

/-- The mantissa of a decimal literal: digits with an optional dot, at least
one digit overall; produces the stripped coefficient and adjusts the
exponent by the fraction length. -/
def decParseMant (sign : Bool) (mant : LChar) (e : Int) : Option PyDecimal :=
  match splitOnChar '.' mant with
  | [ip] =>
    if ip ≠ [] ∧ allDigits ip then some ⟨sign, stripZeros (ip.map dVal), e⟩
    else Option.none
  | [ip, fp] =>
    if (ip ≠ [] ∨ fp ≠ []) ∧ allDigits ip ∧ allDigits fp then
      some ⟨sign, stripZeros ((ip ++ fp).map dVal), e - fp.length⟩
    else Option.none
  | _ => Option.none

/-- The combination of mantissa and optional exponent part after the sign
has been consumed. -/
def decParseBody (p : Bool × LChar) : Option PyDecimal :=
  match splitOnChar 'E' p.2 with
  | [mant] => decParseMant p.1 mant 0
  | [mant, ex] =>
    match parseSignedInt ex with
    | some e => decParseMant p.1 mant e
    | Option.none => Option.none
  | _ => Option.none

/-- The `Decimal(str)` constructor's literal syntax: optional sign, digits
with optional dot, optional case-insensitive `E` exponent. -/
def decParse (s : LChar) : Option PyDecimal :=
  decParseBody (pySignSplit (s.map (fun c => if c = 'e' then 'E' else c)))

theorem natChars_ne_nil (n : Nat) : natChars n ≠ [] := by
  rw [natChars]
  by_cases h : n < 10 <;> simp [h]

theorem isDigit_not_special {c c2 : Char} (h : c.isDigit = true)
    (hc2 : c2 ∈ specialChars) : c ≠ c2 := by
  intro he
  subst he
  fin_cases hc2 <;> exact absurd h (by decide)

theorem not_special_mem_of_digits {s : LChar} (hall : allDigits s = true) {c : Char}
    (hc : c ∈ specialChars) : c ∉ s := by
  intro hm
  exact isDigit_not_special (List.all_eq_true.mp hall _ hm) hc rfl

theorem allDigits_map_dChar {l : List Nat} (h : ∀ k ∈ l, k < 10) :
    allDigits (l.map dChar) = true := by
  simp only [allDigits, List.all_eq_true]
  intro c hc
  obtain ⟨k, hk, rfl⟩ := List.mem_map.mp hc
  exact dChar_isDigit (h k hk)

theorem allDigits_append_eq (s1 s2 : LChar) :
    allDigits (s1 ++ s2) = (allDigits s1 && allDigits s2) := by
  simp [allDigits]

theorem allDigits_replicate_zero (k : Nat) : allDigits (List.replicate k '0') = true := by
  simp only [allDigits, List.all_eq_true]
  intro c hc
  rw [List.eq_of_mem_replicate hc]
  decide

theorem map_dVal_map_dChar {l : List Nat} (h : ∀ k ∈ l, k < 10) :
    (l.map dChar).map dVal = l := by
  rw [List.map_map]
  exact List.map_congr_left (fun k hk => dVal_dChar (h k hk)) |>.trans (List.map_id l)

theorem map_dVal_replicate_zero (k : Nat) :
    (List.replicate k '0').map dVal = List.replicate k 0 := by
  rw [List.map_replicate]
  rfl

theorem map_eE_id {s : LChar} (h : 'e' ∉ s) :
    s.map (fun c => if c = 'e' then 'E' else c) = s := by
  induction s with
  | nil => rfl
  | cons x xs ih =>
    simp only [List.mem_cons, not_or] at h
    rw [List.map_cons, if_neg (fun he : x = 'e' => h.1 he.symm), ih h.2]

theorem dropWhile_zero_replicate (k : Nat) (l : List Nat) :
    (List.replicate k 0 ++ l).dropWhile (fun x => x == 0) =
      l.dropWhile (fun x => x == 0) := by
  induction k with
  | zero => rfl
  | succ k ih => simpa [List.replicate_succ, List.dropWhile_cons] using ih

theorem stripZeros_wf {digs : List Nat} (hne : digs ≠ [])
    (hlz : ∀ t, digs = 0 :: t → t = []) (k : Nat) :
    stripZeros (List.replicate k 0 ++ digs) = digs := by
  unfold stripZeros
  rw [dropWhile_zero_replicate]
  obtain ⟨d0, t, hd⟩ := List.exists_cons_of_ne_nil hne
  subst hd
  by_cases h0 : d0 = 0
  · subst h0
    rw [hlz t rfl]
    simp [List.dropWhile_cons]
  · simp [List.dropWhile_cons, h0]

theorem parseSignedInt_intSignedChars (v : Int) :
    parseSignedInt (intSignedChars v) = some v := by
  unfold intSignedChars
  by_cases h : v < 0
  · rw [if_pos h]
    show parseSignedInt ('-' :: natChars v.natAbs) = some v
    simp only [parseSignedInt, if_pos rfl, natChars_ne_nil, allDigits_natChars,
      parseNatDigits_natChars, ne_eq, not_false_iff, and_self, if_true]
    congr 1
    omega
  · rw [if_neg h]
    show parseSignedInt ('+' :: natChars v.natAbs) = some v
    simp only [parseSignedInt, if_neg (show ¬('+' : Char) = '-' by decide), if_pos rfl,
      natChars_ne_nil, allDigits_natChars, parseNatDigits_natChars, ne_eq,
      not_false_iff, and_self, if_true]
    congr 1
    omega

theorem decDotplace_le {x : PyDecimal} (hne : x.digits ≠ []) :
    decDotplace x ≤ (x.digits.length : Int) := by
  have hlen : 1 ≤ x.digits.length := List.length_pos.mpr hne
  unfold decDotplace
  split <;> omega

theorem mem_decBody {x : PyDecimal} (hlt : ∀ k ∈ x.digits, k < 10) {c : Char}
    (hc : c ∈ decBody x) : c.isDigit = true ∨ c = '.' := by
  have hmap : ∀ a ∈ x.digits.map dChar, a.isDigit = true := by
    intro a ha
    obtain ⟨k, hk, rfl⟩ := List.mem_map.mp ha
    exact dChar_isDigit (hlt k hk)
  unfold decBody at hc
  split at hc
  · simp only [List.mem_cons, List.mem_append] at hc
    rcases hc with rfl | rfl | hc | hc
    · left; decide
    · right; rfl
    · left; rw [List.eq_of_mem_replicate hc]; decide
    · left; exact hmap c hc
  · split at hc
    · simp only [List.mem_append] at hc
      rcases hc with hc | hc
      · left; exact hmap c hc
      · left; rw [List.eq_of_mem_replicate hc]; decide
    · simp only [List.mem_append, List.mem_cons] at hc
      rcases hc with hc | rfl | hc
      · left; exact hmap c (List.take_subset _ _ hc)
      · right; rfl
      · left; exact hmap c (List.drop_subset _ _ hc)

theorem not_mem_decBody_of {x : PyDecimal} (hlt : ∀ k ∈ x.digits, k < 10) {c : Char}
    (hdig : c.isDigit = false) (hdot : c ≠ '.') : c ∉ decBody x := by
  intro hc
  rcases mem_decBody hlt hc with h | h
  · rw [hdig] at h; exact absurd h (by decide)
  · exact hdot h

theorem decBody_cons {x : PyDecimal} (hne : x.digits ≠ [])
    (hlt : ∀ k ∈ x.digits, k < 10) :
    ∃ c t, decBody x = c :: t ∧ c.isDigit = true := by
  obtain ⟨d0, dr, hd⟩ := List.exists_cons_of_ne_nil hne
  have hd0 : d0 < 10 := hlt d0 (hd ▸ List.mem_cons_self d0 dr)
  unfold decBody
  split
  · exact ⟨'0', _, rfl, by decide⟩
  · split
    · refine ⟨dChar d0,
        dr.map dChar ++ List.replicate (decDotplace x - (x.digits.length : Int)).toNat '0',
        ?_, dChar_isDigit hd0⟩
      rw [hd, List.map_cons, List.cons_append]
    · next h1 h2 =>
      have hk : ∃ k, (decDotplace x).toNat = k + 1 := ⟨(decDotplace x).toNat - 1, by omega⟩
      obtain ⟨k, hk⟩ := hk
      refine ⟨dChar d0, (dr.map dChar).take k ++ '.' :: ((d0 :: dr).map dChar).drop
        (decDotplace x).toNat, ?_, dChar_isDigit hd0⟩
      rw [hd, hk, List.map_cons, List.take_succ_cons, List.cons_append, ← List.map_cons]

theorem not_mem_intSignedChars {c : Char} (hc : c ∈ specialChars) (h1 : c ≠ '-')
    (h2 : c ≠ '+') (v : Int) : c ∉ intSignedChars v := by
  unfold intSignedChars
  split
  · intro hm
    rcases List.mem_cons.mp hm with h | hm
    · exact h1 h
    · exact not_special_mem_of_digits (allDigits_natChars _) hc hm
  · intro hm
    rcases List.mem_cons.mp hm with h | hm
    · exact h2 h
    · exact not_special_mem_of_digits (allDigits_natChars _) hc hm

theorem e_not_mem_decExpPart (x : PyDecimal) : 'e' ∉ decExpPart x := by
  unfold decExpPart
  split
  · simp
  · intro hm
    rcases List.mem_cons.mp hm with h | hm
    · exact absurd h (by decide)
    · exact not_mem_intSignedChars (by decide) (by decide) (by decide) _ hm

theorem E_not_mem_intSignedChars (v : Int) : 'E' ∉ intSignedChars v :=
  not_mem_intSignedChars (by decide) (by decide) (by decide) v

theorem map_eE_decStr {x : PyDecimal} (hlt : ∀ k ∈ x.digits, k < 10) :
    (decStr x).map (fun c => if c = 'e' then 'E' else c) = decStr x := by
  apply map_eE_id
  intro hm
  unfold decStr at hm
  simp only [List.mem_append] at hm
  rcases hm with (hm | hm) | hm
  · split at hm
    · exact absurd hm (by decide)
    · exact absurd hm (by decide)
  · exact not_mem_decBody_of hlt (by decide) (by decide) hm
  · exact e_not_mem_decExpPart x hm

theorem pySignSplit_decStr {x : PyDecimal} (hne : x.digits ≠ [])
    (hlt : ∀ k ∈ x.digits, k < 10) :
    pySignSplit (decStr x) = (x.sign, decBody x ++ decExpPart x) := by
  obtain ⟨c, t, hbody, hdig⟩ := decBody_cons hne hlt
  unfold decStr
  cases hsign : x.sign
  · rw [if_neg (by simp [hsign]), List.nil_append, hbody, List.cons_append]
    show (if c = '-' then (true, t ++ decExpPart x)
      else if c = '+' then (false, t ++ decExpPart x)
      else (false, c :: (t ++ decExpPart x))) = (false, c :: (t ++ decExpPart x))
    rw [if_neg (isDigit_not_special hdig (by decide)),
      if_neg (isDigit_not_special hdig (by decide))]
  · rw [if_pos (by simp [hsign]), List.singleton_append]
    show (if ('-' : Char) = '-' then (true, decBody x ++ decExpPart x)
      else if ('-' : Char) = '+' then (false, decBody x ++ decExpPart x)
      else (false, '-' :: (decBody x ++ decExpPart x))) =
      (true, decBody x ++ decExpPart x)
    rw [if_pos rfl]

theorem allDigits_sublist {s t : LChar} (hsub : s ⊆ t) (h : allDigits t = true) :
    allDigits s = true := by
  simp only [allDigits, List.all_eq_true] at h ⊢
  exact fun a ha => h a (hsub ha)

theorem stripZeros_self {digs : List Nat} (hne : digs ≠ [])
    (hlz : ∀ t, digs = 0 :: t → t = []) : stripZeros digs = digs := by
  have h := stripZeros_wf hne hlz 0
  simpa using h

theorem decParseMant_decBody {x : PyDecimal} (hne : x.digits ≠ [])
    (hlt : ∀ k ∈ x.digits, k < 10) (hlz : ∀ t, x.digits = 0 :: t → t = [])
    (e : Int) (hdp : decDotplace x ≤ (x.digits.length : Int)) :
    decParseMant x.sign (decBody x) e =
      some ⟨x.sign, x.digits, e - ((x.digits.length : Int) - decDotplace x)⟩ := by
  have hmapne : x.digits.map dChar ≠ [] := by simpa using hne
  have hmapall : allDigits (x.digits.map dChar) = true := allDigits_map_dChar hlt
  have hdotmap : '.' ∉ x.digits.map dChar :=
    not_special_mem_of_digits hmapall (by decide)
  unfold decBody
  split
  · next hA =>
    unfold decParseMant
    have h2 : '.' ∉ List.replicate (-decDotplace x).toNat '0' ++ x.digits.map dChar := by
      intro hm
      rcases List.mem_append.mp hm with hm | hm
      · exact absurd (List.eq_of_mem_replicate hm) (by decide)
      · exact hdotmap hm
    have hsplit : splitOnChar '.'
        ('0' :: '.' :: (List.replicate (-decDotplace x).toNat '0' ++ x.digits.map dChar)) =
        [['0'], List.replicate (-decDotplace x).toNat '0' ++ x.digits.map dChar] := by
      have := @splitOnChar_append '.' ['0']
        (List.replicate (-decDotplace x).toNat '0' ++ x.digits.map dChar)
        (show '.' ∉ (['0'] : LChar) by decide)
      rw [List.singleton_append] at this
      rw [this, splitOnChar_not_mem h2]
    simp only [hsplit]
    rw [if_pos ⟨Or.inl (by simp), by decide,
      by rw [allDigits_append_eq, allDigits_replicate_zero, hmapall]; rfl⟩]
    simp only [Option.some.injEq, PyDecimal.mk.injEq, true_and]
    constructor
    · rw [List.singleton_append, List.map_cons, List.map_append,
        map_dVal_replicate_zero, map_dVal_map_dChar hlt]
      have hv : dVal '0' = 0 := by decide
      rw [hv, show (0 : Nat) :: (List.replicate (-decDotplace x).toNat 0 ++ x.digits) =
        List.replicate ((-decDotplace x).toNat + 1) 0 ++ x.digits from by
          rw [List.replicate_succ, List.cons_append]]
      exact stripZeros_wf hne hlz _
    · simp only [List.length_append, List.length_replicate, List.length_map]
      omega
  · split
    · next h1 h2 =>
      have hdpn : decDotplace x = (x.digits.length : Int) := le_antisymm hdp h2
      have hrep : (decDotplace x - (x.digits.length : Int)).toNat = 0 := by omega
      rw [hrep, List.replicate_zero, List.append_nil]
      unfold decParseMant
      simp only [splitOnChar_not_mem hdotmap]
      rw [if_pos ⟨hmapne, hmapall⟩]
      simp only [Option.some.injEq, PyDecimal.mk.injEq, true_and]
      exact ⟨by rw [map_dVal_map_dChar hlt]; exact stripZeros_self hne hlz, by omega⟩
    · next h1 h2 =>
      have hdot_take : '.' ∉ (x.digits.map dChar).take (decDotplace x).toNat :=
        fun hm => hdotmap (List.take_subset _ _ hm)
      have hdot_drop : '.' ∉ (x.digits.map dChar).drop (decDotplace x).toNat :=
        fun hm => hdotmap (List.drop_subset _ _ hm)
      have hsplit : splitOnChar '.'
          ((x.digits.map dChar).take (decDotplace x).toNat ++
            '.' :: (x.digits.map dChar).drop (decDotplace x).toNat) =
          [(x.digits.map dChar).take (decDotplace x).toNat,
            (x.digits.map dChar).drop (decDotplace x).toNat] := by
        rw [splitOnChar_append _ hdot_take, splitOnChar_not_mem hdot_drop]
      unfold decParseMant
      simp only [hsplit]
      have htne : (x.digits.map dChar).take (decDotplace x).toNat ≠ [] := by
        have hlen : 0 < ((x.digits.map dChar).take (decDotplace x).toNat).length := by
          rw [List.length_take, List.length_map]
          have : 0 < x.digits.length := List.length_pos.mpr hne
          omega
        exact List.length_pos.mp hlen
      rw [if_pos ⟨Or.inl htne,
        allDigits_sublist (List.take_subset _ _) hmapall,
        allDigits_sublist (List.drop_subset _ _) hmapall⟩]
      simp only [Option.some.injEq, PyDecimal.mk.injEq, true_and]
      constructor
      · rw [List.take_append_drop, map_dVal_map_dChar hlt]
        exact stripZeros_self hne hlz
      · rw [List.length_drop, List.length_map]
        omega

/-- `Decimal(unicode(x))` recovers the decimal value exactly, for every
well-formed decimal. -/
theorem decParse_decStr {x : PyDecimal} (h : x.WF) : decParse (decStr x) = some x := by
  obtain ⟨hne, hlt, hlz⟩ := h
  have hdp := decDotplace_le hne
  have hlen : 1 ≤ x.digits.length := List.length_pos.mpr hne
  have hEbody : 'E' ∉ decBody x := not_mem_decBody_of hlt (by decide) (by decide)
  unfold decParse
  rw [map_eE_decStr hlt, pySignSplit_decStr hne hlt]
  unfold decParseBody
  by_cases hld : x.exp + (x.digits.length : Int) = decDotplace x
  · have hexp : decExpPart x = [] := by unfold decExpPart; rw [if_pos hld]
    rw [hexp, List.append_nil]
    simp only [splitOnChar_not_mem hEbody]
    rw [decParseMant_decBody hne hlt hlz 0 hdp]
    have hx : 0 - ((x.digits.length : Int) - decDotplace x) = x.exp := by omega
    rw [hx]
  · have hexp : decExpPart x =
        'E' :: intSignedChars (x.exp + (x.digits.length : Int) - decDotplace x) := by
      unfold decExpPart; rw [if_neg hld]
    rw [hexp]
    simp only [splitOnChar_append _ hEbody,
      splitOnChar_not_mem (E_not_mem_intSignedChars _)]
    simp only [parseSignedInt_intSignedChars]
    rw [decParseMant_decBody hne hlt hlz _ hdp]
    have hx : x.exp + (x.digits.length : Int) - decDotplace x -
        ((x.digits.length : Int) - decDotplace x) = x.exp := by omega
    rw [hx]

/-- Python's `%d` of an integer (sign only when negative). -/
def intChars (n : Int) : LChar :=
  if n < 0 then '-' :: natChars n.natAbs else natChars n.natAbs

mutual

/-- The identity injection of a raw value into the Python value domain, as
when a converter returns a non-string raw value unchanged. -/
def Raw.toPy : Raw → PyVal
  | .null => .none
  | .bool b => .bool b
  | .int n => .int n
  | .float f => .float f
  | .str s => .str s
  | .list xs => .list (Raw.listToPy xs)
  | .dict kvs => .dict (Raw.dictToPy kvs)

/-- Elementwise injection of a raw sequence. -/
def Raw.listToPy : List Raw → List PyVal
  | [] => []
  | x :: xs => x.toPy :: Raw.listToPy xs

/-- Valuewise injection of a raw mapping. -/
def Raw.dictToPy : List (LChar × Raw) → List (LChar × PyVal)
  | [] => []
  | (k, v) :: rest => (k, v.toPy) :: Raw.dictToPy rest

end

/-- The scalar field classes of the source, one constructor per class:
`TextField`, `FloatField`, `IntegerField`, `LongField`, `BooleanField`,
`DecimalField`, `DateField`, `DateTimeField`, `TimeField`. -/
inductive FieldKind where
  | text
  | flt
  | int
  | lng
  | bool
  | dec
  | date
  | datetime
  | time

/-- `_to_python` of each scalar field class.  `unicode`, `float`, `int`,
`long` and `bool` act on the raw value; the date/time classes parse strings
and return any other raw value unchanged; `DecimalField` parses the stored
numeral.  Branches outside the fragment the claims exercise (such as
`unicode` of a float, or `int` of a string) are `notModeled`. -/
def FieldKind.toPython : FieldKind → Raw → Except PyErr PyVal
  | .text, Raw.str s => Except.ok (PyVal.str s)
  | .text, Raw.int n => Except.ok (PyVal.str (intChars n))
  | .text, Raw.bool b => Except.ok (PyVal.str (if b then "True".toList else "False".toList))
  | .text, Raw.null => Except.ok (PyVal.str ("None".toList))
  | .text, _ => Except.error PyErr.notModeled
  | .flt, Raw.float f => Except.ok (PyVal.float f)
  | .flt, Raw.int n => Except.ok (PyVal.float (Float.ofInt n))
  | .flt, _ => Except.error PyErr.notModeled
  | .int, Raw.int n => Except.ok (PyVal.int n)
  | .int, Raw.bool b => Except.ok (PyVal.int (if b then 1 else 0))
  | .int, _ => Except.error PyErr.notModeled
  | .lng, Raw.int n => Except.ok (PyVal.int n)
  | .lng, Raw.bool b => Except.ok (PyVal.int (if b then 1 else 0))
  | .lng, _ => Except.error PyErr.notModeled
  | .bool, Raw.bool b => Except.ok (PyVal.bool b)
  | .bool, Raw.int n => Except.ok (PyVal.bool (decide (n ≠ 0)))
  | .bool, Raw.null => Except.ok (PyVal.bool false)
  | .bool, _ => Except.error PyErr.notModeled
  | .dec, Raw.str s =>
    match decParse s with
    | some d => Except.ok (PyVal.decimal d)
    | Option.none => Except.error (PyErr.invalidDecimal s)
  | .dec, _ => Except.error PyErr.notModeled
  | .date, Raw.str s => (dateFromString s).map PyVal.date
  | .date, v => Except.ok v.toPy
  | .datetime, Raw.str s => (dateTimeFromString s).map PyVal.datetime
  | .datetime, v => Except.ok v.toPy
  | .time, Raw.str s => (timeFromString s).map PyVal.time
  | .time, v => Except.ok v.toPy

/-- `_to_json` of each scalar field class.  The first five classes inherit
`Field._to_json`, which just applies `_to_python` to the typed value;
`DecimalField` renders with `unicode`; the date/time classes format through
`isoformat` after normalising (a `datetime` is cut to its date for
`DateField` and to its time for `TimeField`; a bare date becomes midnight
for `DateTimeField`; a `struct_time` goes through
`utcfromtimestamp(timegm(...))`). -/
def FieldKind.toJson : FieldKind → PyVal → Except PyErr Raw
  | .text, PyVal.str s => Except.ok (Raw.str s)
  | .text, PyVal.int n => Except.ok (Raw.str (intChars n))
  | .text, PyVal.bool b => Except.ok (Raw.str (if b then "True".toList else "False".toList))
  | .text, _ => Except.error PyErr.notModeled
  | .flt, PyVal.float f => Except.ok (Raw.float f)
  | .flt, PyVal.int n => Except.ok (Raw.float (Float.ofInt n))
  | .flt, _ => Except.error PyErr.notModeled
  | .int, PyVal.int n => Except.ok (Raw.int n)
  | .int, PyVal.bool b => Except.ok (Raw.int (if b then 1 else 0))
  | .int, _ => Except.error PyErr.notModeled
  | .lng, PyVal.int n => Except.ok (Raw.int n)
  | .lng, PyVal.bool b => Except.ok (Raw.int (if b then 1 else 0))
  | .lng, _ => Except.error PyErr.notModeled
  | .bool, PyVal.bool b => Except.ok (Raw.bool b)
  | .bool, PyVal.int n => Except.ok (Raw.bool (decide (n ≠ 0)))
  | .bool, _ => Except.error PyErr.notModeled
  | .dec, PyVal.decimal d => Except.ok (Raw.str (decStr d))
  | .dec, PyVal.int n => Except.ok (Raw.str (intChars n))
  | .dec, _ => Except.error PyErr.notModeled
  | .date, PyVal.datetime x => Except.ok (Raw.str (fmtDate x.year x.month x.day))
  | .date, PyVal.date d => Except.ok (Raw.str (fmtDate d.year d.month d.day))
  | .date, _ => Except.error PyErr.notModeled
  | .datetime, PyVal.structTime t =>
    if 1 ≤ t.year ∧ t.year ≤ 9999 ∧ 1 ≤ t.month ∧ t.month ≤ 12 then
      if 1 ≤ t.day ∧ t.day ≤ 31 ∧ t.hour ≤ 23 ∧ t.minute ≤ 59 ∧ t.second ≤ 61 then
        if (epochNorm t.year t.month t.day t.hour t.minute t.second).year ≤ 9999 then
          Except.ok (Raw.str
            (fmtDT (epochNorm t.year t.month t.day t.hour t.minute t.second).year
              (epochNorm t.year t.month t.day t.hour t.minute t.second).month
              (epochNorm t.year t.month t.day t.hour t.minute t.second).day
              (epochNorm t.year t.month t.day t.hour t.minute t.second).hour
              (epochNorm t.year t.month t.day t.hour t.minute t.second).minute
              (epochNorm t.year t.month t.day t.hour t.minute t.second).second ++ ['Z']))
        else Except.error PyErr.pyValueError
      else Except.error PyErr.notModeled
    else Except.error PyErr.pyValueError
  | .datetime, PyVal.datetime x =>
    Except.ok (Raw.str (fmtDT x.year x.month x.day x.hour x.minute x.second ++ ['Z']))
  | .datetime, PyVal.date d =>
    Except.ok (Raw.str (fmtDT d.year d.month d.day 0 0 0 ++ ['Z']))
  | .datetime, _ => Except.error PyErr.notModeled
  | .time, PyVal.datetime x => Except.ok (Raw.str (fmtHMS x.hour x.minute x.second))
  | .time, PyVal.time t => Except.ok (Raw.str (fmtHMS t.hour t.minute t.second))
  | .time, _ => Except.error PyErr.notModeled

/-- The composite a claim about round trips speaks about:
`to_python(to_json(x))`. -/
def roundTrip (k : FieldKind) (v : PyVal) : Except PyErr PyVal :=
  (k.toJson v).bind k.toPython

/-- Removal of a key by `dict.pop` on an association list. -/
def dictRemove {κ α : Type} [DecidableEq κ] (k : κ) : List (κ × α) → List (κ × α)
  | [] => []
  | (k0, v) :: rest => if k0 = k then rest else (k0, v) :: dictRemove k rest

/-- One declared scalar field of a concrete schema: the attribute it is
bound to, the resolved storage key, the scalar kind, and the configured
default (`PyVal.none` means no default, exactly like a Python `None`
default; zero-argument default producers are outside this fragment). -/
structure CField where
  attr : LChar
  name : LChar
  kind : FieldKind
  default : PyVal

/-- `Field.__get__`: read the raw value at the field's key; convert through
`_to_python` when present and non-null; otherwise return the default. -/
def fieldGet (f : CField) (data : RawDoc) : Except PyErr PyVal :=
  match pyGetRaw data f.name with
  | Raw.null => Except.ok f.default
  | v => f.kind.toPython v

/-- `Field.__set__`: a null is stored directly, bypassing conversion;
anything else is stored as its `_to_json` image. -/
def fieldSet (f : CField) (data : RawDoc) (v : PyVal) : Except PyErr RawDoc :=
  match v with
  | PyVal.none => Except.ok (dictSet f.name Raw.null data)
  | v => (f.kind.toJson v).map (fun r => dictSet f.name r data)

/-- The loop body of `Schema.__init__` over the field registry: set each
declared field from its keyword when supplied (popping it), else set it to
its own getter's result, materialising the default into the store. -/
def schemaInitGo (fields : List CField) (values : List (LChar × PyVal))
    (data : RawDoc) : Except PyErr (RawDoc × List (LChar × PyVal)) :=
  match fields with
  | [] => Except.ok (data, values)
  | f :: rest =>
    match dictGet f.attr values with
    | some v =>
      match fieldSet f data v with
      | Except.ok d2 => schemaInitGo rest (dictRemove f.attr values) d2
      | Except.error e => Except.error e
    | Option.none =>
      match fieldGet f data with
      | Except.ok g =>
        match fieldSet f data g with
        | Except.ok d2 => schemaInitGo rest values d2
        | Except.error e => Except.error e
      | Except.error e => Except.error e

/-- `Schema.__init__(**values)`: fresh empty backing store, then the field
loop; returns the backing store and the unconsumed keywords. -/
def schemaInit (fields : List CField) (values : List (LChar × PyVal)) :
    Except PyErr (RawDoc × List (LChar × PyVal)) :=
  schemaInitGo fields values []

/-- The reserved identity key. -/
def idKey : LChar := "_id".toList

/-- `Document._get_id` over a plain mapping backing store (`_data.get('_id')`,
absent surfacing as `None`). -/
def docGetId (d : RawDoc) : Raw := pyGetRaw d idKey

/-- `Document._set_id`: raises `AttributeError('id can only be set on new
documents')` before writing whenever the current id is not `None`; writes
under the reserved key otherwise.  Returns the (possibly unchanged) store
and the raised error, if any. -/
def docSetIdRun (d : RawDoc) (v : Raw) : RawDoc × Option PyErr :=
  match docGetId d with
  | Raw.null => (dictSet idKey v d, Option.none)
  | _ => (d, some PyErr.idAlreadySet)

/-- A `Field` object as `SchemaMeta` sees it: its (possibly absent) explicit
name and an identifying tag to tell distinct `Field` objects apart. -/
structure FieldDecl where
  name : Option LChar
  tag : Nat

/-- Python truthiness of the `name` attribute: `None` and the empty string
are falsy (`if not attrval.name`). -/
def falsyName : Option LChar → Bool
  | Option.none => true
  | some s => s.isEmpty

/-- Name inference at type definition: a falsy name adopts the declaring
attribute name, an explicit nonempty name is kept. -/
def resolveFieldName (attr : LChar) (f : FieldDecl) : FieldDecl :=
  if falsyName f.name then ⟨some attr, f.tag⟩ else f

/-- `dict.update` on association lists: overlay every pair of `upd` onto
`base`. -/
def dictUpdate {κ α : Type} [DecidableEq κ] (base upd : List (κ × α)) :
    List (κ × α) :=
  upd.foldl (fun acc p => dictSet p.1 p.2 acc) base

/-- `SchemaMeta.__new__`: merge every ancestor's `_fields` first, then
overlay the type's own `Field` declarations keyed by attribute name, with
name inference applied in place. -/
def schemaMetaFields (baseTables : List (List (LChar × FieldDecl)))
    (decls : List (LChar × FieldDecl)) : List (LChar × FieldDecl) :=
  decls.foldl (fun acc p => dictSet p.1 (resolveFieldName p.1 p.2) acc)
    (baseTables.foldl dictUpdate [])

/-- A heap object: the mutable raw documents and raw sequences that Python
code can alias. -/
inductive HObj where
  | dict (kvs : RawDoc)
  | list (xs : List Raw)

/-- The heap: objects addressed by allocation order. -/
abbrev Heap := List HObj

/-- A schema instance holds a reference to its backing store. -/
structure SchemaInst where
  dataRef : Nat

/-- `Schema.wrap(data)`: `instance = cls()` first builds a throwaway backing
dict (materialising defaults into it), then `instance._data = data` aliases
the given document; nothing is written to the wrapped document. -/
def schemaWrap (h : Heap) (fields : List CField) (r : Nat) :
    Except PyErr (Heap × SchemaInst) :=
  match schemaInit fields [] with
  | Except.ok p => Except.ok (h ++ [HObj.dict p.1], SchemaInst.mk r)
  | Except.error e => Except.error e

/-- `Schema.unwrap`: the live backing store itself (the reference, not a
copy). -/
def schemaUnwrap (i : SchemaInst) : Nat := i.dataRef

/-- `Schema.__setitem__` raw map-like write: mutate the referenced dict in
place. -/
def instSetItem (h : Heap) (i : SchemaInst) (k : LChar) (v : Raw) : Heap :=
  match h[i.dataRef]? with
  | some (HObj.dict kvs) => h.set i.dataRef (HObj.dict (dictSet k v kvs))
  | _ => h

/-- `Schema.__getitem__`-style raw map-like read. -/
def instGetItem (h : Heap) (i : SchemaInst) (k : LChar) : Option Raw :=
  match h[i.dataRef]? with
  | some (HObj.dict kvs) => dictGet k kvs
  | _ => Option.none

/-- `Schema._to_json(self, value)`: `return self.unwrap()` — the argument is
never consulted. -/
def schemaToJsonMethod (i : SchemaInst) (v : PyVal) : Nat := schemaUnwrap i

/-- Python truthiness of an optional heap object (`default or []`). -/
def objTruthy (h : Heap) : Option Nat → Bool
  | Option.none => false
  | some r =>
    match h[r]? with
    | some (HObj.list xs) => !xs.isEmpty
    | some (HObj.dict kvs) => !kvs.isEmpty
    | Option.none => false

/-- A `ListField` object: resolved-or-absent name, the reference to the
default object installed at declaration time, and the element field. -/
structure ListFieldObj where
  name : Option LChar
  defaultRef : Nat
  elemKind : FieldKind

/-- `ListField.__init__`: `Field.__init__(self, name=name, default=default
or [])` — a falsy default argument is replaced by one fresh empty list
allocated right now, once for the field object. -/
def listFieldInit (h : Heap) (nameArg : Option LChar) (defaultArg : Option Nat)
    (elem : FieldKind) : Heap × ListFieldObj :=
  match defaultArg with
  | some r =>
    if objTruthy h (some r) then (h, ListFieldObj.mk nameArg r elem)
    else (h ++ [HObj.list []], ListFieldObj.mk nameArg h.length elem)
  | Option.none => (h ++ [HObj.list []], ListFieldObj.mk nameArg h.length elem)

/-- A `DictField` object: resolved-or-absent name and the reference to the
default object installed at declaration time. -/
structure DictFieldObj where
  name : Option LChar
  defaultRef : Nat

/-- `DictField.__init__`: `default=default or {}` with one fresh empty dict
allocated at declaration time when the argument is falsy. -/
def dictFieldInit (h : Heap) (nameArg : Option LChar) (defaultArg : Option Nat) :
    Heap × DictFieldObj :=
  match defaultArg with
  | some r =>
    if objTruthy h (some r) then (h, DictFieldObj.mk nameArg r)
    else (h ++ [HObj.dict []], DictFieldObj.mk nameArg h.length)
  | Option.none => (h ++ [HObj.dict []], DictFieldObj.mk nameArg h.length)

/-- What `Field.__get__` produces on a `ListField`: a converting `Proxy`
over the stored raw value when the key holds a non-null value, or the
field's default object itself (a list is neither `None` nor callable, so it
is returned as is, unconverted). -/
inductive ListGet where
  | proxy (raw : Raw) (elem : FieldKind)
  | defaultObj (r : Nat)

/-- `Field.__get__` specialised to a `ListField`. -/
def listFieldGet (f : ListFieldObj) (data : RawDoc) : ListGet :=
  match f.name with
  | some nm =>
    match dictGet nm data with
    | some Raw.null => ListGet.defaultObj f.defaultRef
    | some v => ListGet.proxy v f.elemKind
    | Option.none => ListGet.defaultObj f.defaultRef
  | Option.none => ListGet.defaultObj f.defaultRef

/-- What `Field.__get__` produces on a `DictField`: a wrapped sub-schema
over the stored raw value when present and non-null, or the field's default
object itself, unconverted. -/
inductive DictGet where
  | wrapped (raw : Raw)
  | defaultObj (r : Nat)

/-- `Field.__get__` specialised to a `DictField`. -/
def dictFieldGet (f : DictFieldObj) (data : RawDoc) : DictGet :=
  match f.name with
  | some nm =>
    match dictGet nm data with
    | some Raw.null => DictGet.defaultObj f.defaultRef
    | some v => DictGet.wrapped v
    | Option.none => DictGet.defaultObj f.defaultRef
  | Option.none => DictGet.defaultObj f.defaultRef

/-- `ListField.Proxy.__setitem__`: the right-hand side evaluates
`self.field._to_json(item)`, but the name `item` is bound nowhere in scope
(not a parameter, not a local, and the module defines no global `item`), so
every element assignment raises `NameError` before any conversion or any
write to the underlying raw sequence. -/
def proxySetitem (raw : List Raw) (index : Nat) (value : PyVal) :
    Except PyErr (List Raw) :=
  Except.error PyErr.nameErrorItem

/-- `ListField.Proxy.__getitem__`: convert the stored element on every
access. -/
def proxyGetitem (raw : List Raw) (elem : FieldKind) (index : Nat) :
    Except PyErr PyVal :=
  match raw[index]? with
  | some v => elem.toPython v
  | Option.none => Except.error PyErr.pyValueError

theorem dictGet_dictSet_ne_none {κ α : Type} [DecidableEq κ] {k : κ}
    {l : List (κ × α)} (h : dictGet k l ≠ Option.none) (k2 : κ) (v : α) :
    dictGet k (dictSet k2 v l) ≠ Option.none := by
  by_cases he : k2 = k
  · subst he
    rw [dictGet_dictSet_self]
    simp
  · rw [dictGet_dictSet_ne _ _ he]
    exact h

theorem map_dictSet_ok {nm : LChar} {data d2 : RawDoc} (E : Except PyErr Raw)
    (h : E.map (fun r => dictSet nm r data) = Except.ok d2) :
    ∃ r, d2 = dictSet nm r data := by
  cases E with
  | error e => simp [Except.map] at h
  | ok r =>
    simp only [Except.map, Except.ok.injEq] at h
    exact ⟨r, h.symm⟩

theorem fieldSet_shape {f : CField} {data : RawDoc} {v : PyVal} {d2 : RawDoc}
    (h : fieldSet f data v = Except.ok d2) : ∃ r, d2 = dictSet f.name r data := by
  unfold fieldSet at h
  cases v <;>
    first
    | exact map_dictSet_ok _ h
    | exact ⟨Raw.null, by injection h with h2; exact h2.symm⟩

theorem schemaInitGo_keeps {fields : List CField} {values : List (LChar × PyVal)}
    {data d : RawDoc} {rest : List (LChar × PyVal)} {k : LChar}
    (h : schemaInitGo fields values data = Except.ok (d, rest))
    (hk : dictGet k data ≠ Option.none) : dictGet k d ≠ Option.none := by
  induction fields generalizing values data with
  | nil =>
    unfold schemaInitGo at h
    injection h with h2
    have h3 : data = d := congrArg Prod.fst h2
    rw [← h3]
    exact hk
  | cons f rest2 ih =>
    unfold schemaInitGo at h
    split at h
    · split at h
      · next d2 hs =>
        obtain ⟨r, hr⟩ := fieldSet_shape hs
        exact ih h (hr ▸ dictGet_dictSet_ne_none hk _ _)
      · exact absurd h (by simp)
    · split at h
      · split at h
        · next d2 hs =>
          obtain ⟨r, hr⟩ := fieldSet_shape hs
          exact ih h (hr ▸ dictGet_dictSet_ne_none hk _ _)
        · exact absurd h (by simp)
      · exact absurd h (by simp)

theorem schemaInitGo_mem {fields : List CField} {values : List (LChar × PyVal)}
    {data d : RawDoc} {rest : List (LChar × PyVal)}
    (h : schemaInitGo fields values data = Except.ok (d, rest)) :
    ∀ f ∈ fields, dictGet f.name d ≠ Option.none := by
  induction fields generalizing values data with
  | nil => intro f hf; simp at hf
  | cons f0 rest2 ih =>
    intro f hf
    unfold schemaInitGo at h
    rcases List.mem_cons.mp hf with rfl | hf2
    · split at h
      · split at h
        · next d2 hs =>
          obtain ⟨r, hr⟩ := fieldSet_shape hs
          exact schemaInitGo_keeps h (by rw [hr, dictGet_dictSet_self]; simp)
        · exact absurd h (by simp)
      · split at h
        · split at h
          · next d2 hs =>
            obtain ⟨r, hr⟩ := fieldSet_shape hs
            exact schemaInitGo_keeps h (by rw [hr, dictGet_dictSet_self]; simp)
          · exact absurd h (by simp)
        · exact absurd h (by simp)
    · split at h
      · split at h
        · exact ih h f hf2
        · exact absurd h (by simp)
      · split at h
        · split at h
          · exact ih h f hf2
          · exact absurd h (by simp)
        · exact absurd h (by simp)

theorem dictGet_none_keys {κ α : Type} [DecidableEq κ] {k : κ} {l : List (κ × α)}
    (h : dictGet k l = Option.none) : ∀ p ∈ l, p.1 ≠ k := by
  induction l with
  | nil => intro p hp; simp at hp
  | cons q rest ih =>
    obtain ⟨k0, v0⟩ := q
    intro p hp
    unfold dictGet at h
    by_cases he : k0 = k
    · rw [if_pos he] at h
      exact absurd h (by simp)
    · rw [if_neg he] at h
      rcases List.mem_cons.mp hp with rfl | hp2
      · exact he
      · exact ih h p hp2

theorem metaFold_ne {l acc : List (LChar × FieldDecl)} {attr : LChar}
    (h : ∀ p ∈ l, p.1 ≠ attr) :
    dictGet attr (l.foldl (fun acc p => dictSet p.1 (resolveFieldName p.1 p.2) acc) acc) =
      dictGet attr acc := by
  induction l generalizing acc with
  | nil => rfl
  | cons p r ih =>
    rw [List.foldl_cons,
      ih (fun q hq => h q (List.mem_cons_of_mem _ hq)),
      dictGet_dictSet_ne _ _ (h p (List.mem_cons_self _ _))]

theorem metaFold_own {decls : List (LChar × FieldDecl)}
    {acc : List (LChar × FieldDecl)} {attr : LChar} {f : FieldDecl}
    (hnd : (decls.map Prod.fst).Nodup) (hf : dictGet attr decls = some f) :
    dictGet attr
      (decls.foldl (fun acc p => dictSet p.1 (resolveFieldName p.1 p.2) acc) acc) =
      some (resolveFieldName attr f) := by
  induction decls generalizing acc with
  | nil => simp [dictGet] at hf
  | cons p r ih =>
    obtain ⟨k0, v0⟩ := p
    rw [List.map_cons, List.nodup_cons] at hnd
    rw [List.foldl_cons]
    unfold dictGet at hf
    by_cases hp : k0 = attr
    · rw [if_pos hp] at hf
      injection hf with hf2
      subst hf2
      subst hp
      have hr : ∀ q ∈ r, q.1 ≠ k0 := by
        intro q hq he
        have hm : q.1 ∈ r.map Prod.fst := List.mem_map_of_mem Prod.fst hq
        rw [he] at hm
        exact hnd.1 hm
      rw [metaFold_ne hr, dictGet_dictSet_self]
    · rw [if_neg hp] at hf
      exact ih hnd.2 hf

/-- The example schema of the spec: an integer field `age` with default 0
and a text field `name` with no default. -/
def ageField : CField :=
  CField.mk "age".toList "age".toList FieldKind.int (PyVal.int 0)

/-- The `name` field of the example schema. -/
def nameField : CField :=
  CField.mk "name".toList "name".toList FieldKind.text PyVal.none

/-- C1 counterexample: constructing the example schema with no supplied
values stores a key for *every* declared field — `age` is present, holding
the serialised default 0, and `name` is present holding null — whereas the
claim demands those keys be absent and the raw store be the empty
document. -/
theorem C1_counterexample :
    schemaInit [ageField, nameField] [] =
      Except.ok ([("age".toList, Raw.int 0), ("name".toList, Raw.null)], []) ∧
    dictGet "age".toList
      [("age".toList, Raw.int 0), ("name".toList, Raw.null)] = some (Raw.int 0) ∧
    ([("age".toList, Raw.int 0), ("name".toList, Raw.null)] : RawDoc) ≠ [] := by
  refine ⟨rfl, rfl, ?_⟩
  simp

/-- C1 amended: `Schema.__init__` writes the getter's result back through
the typed setter even for unsupplied fields, so after a successful fresh
construction every declared field's key is *present* in the raw backing
store returned by `unwrap()` (unsupplied fields hold the serialised default,
or null when there is no default); in particular constructing with no values
yields one entry per declared field, not the empty raw document. -/
theorem C1_default_persisted (fields : List CField) (d : RawDoc)
    (rest : List (LChar × PyVal))
    (hinit : schemaInit fields [] = Except.ok (d, rest)) :
    ∀ f ∈ fields, dictGet f.name d ≠ Option.none := by
  unfold schemaInit at hinit
  exact schemaInitGo_mem hinit

/-- C1 witness: the amended statement evaluated on the example schema. -/
theorem C1_default_persisted_witness :
    dictGet "age".toList
      [("age".toList, Raw.int 0), ("name".toList, Raw.null)] ≠ Option.none ∧
    dictGet "name".toList
      [("age".toList, Raw.int 0), ("name".toList, Raw.null)] ≠ Option.none :=
  ⟨C1_default_persisted [ageField, nameField] _ [] rfl ageField
      (List.mem_cons_self _ _),
    C1_default_persisted [ageField, nameField] _ [] rfl nameField
      (by simp [List.mem_cons])⟩

/-- C2: every element assignment through the typed-sequence proxy raises
`NameError` — `__setitem__` converts the unbound name `item` instead of the
supplied value — rather than storing `to_json` of the supplied value;
evaluated here at a concrete input (a proxy over `['a']` with a text element
field, assigning `'b'` at index 0). -/
theorem C2_setitem_raises_name_error :
    proxySetitem [Raw.str "a".toList] 0 (PyVal.str "b".toList) =
      Except.error PyErr.nameErrorItem := rfl

/-- C3: identity is write-once.  While the id is absent the assignment
stores the value under the reserved `_id` key; as soon as a (non-null) id is
held, every further assignment — including of the identical value — raises
the invalid-state `AttributeError` and leaves the backing store
untouched. -/
theorem C3_id_write_once (d : RawDoc) (v : Raw) :
    (docGetId d = Raw.null →
      docSetIdRun d v = (dictSet idKey v d, Option.none) ∧
      docGetId (dictSet idKey v d) = v) ∧
    (docGetId d ≠ Raw.null →
      docSetIdRun d v = (d, some PyErr.idAlreadySet) ∧
      docSetIdRun d (docGetId d) = (d, some PyErr.idAlreadySet)) := by
  constructor
  · intro h
    constructor
    · unfold docSetIdRun
      rw [h]
    · unfold docGetId pyGetRaw
      rw [dictGet_dictSet_self]
      rfl
  · intro h
    have hrun : docSetIdRun d v = (d, some PyErr.idAlreadySet) := by
      unfold docSetIdRun
      cases hd : docGetId d
      · exact absurd hd h
      all_goals rfl
    have hrun2 : docSetIdRun d (docGetId d) = (d, some PyErr.idAlreadySet) := by
      unfold docSetIdRun
      cases hd : docGetId d
      · exact absurd hd h
      all_goals rfl
    exact ⟨hrun, hrun2⟩

/-- C3 witness: a first assignment on an empty document succeeds and a
repeated assignment of the identical value fails invalid-state. -/
theorem C3_id_write_once_witness :
    docSetIdRun [] (Raw.str "x".toList) =
      ([(idKey, Raw.str "x".toList)], Option.none) ∧
    docSetIdRun [(idKey, Raw.str "x".toList)] (Raw.str "x".toList) =
      ([(idKey, Raw.str "x".toList)], some PyErr.idAlreadySet) :=
  ⟨((C3_id_write_once [] (Raw.str "x".toList)).1 rfl).1,
    ((C3_id_write_once [(idKey, Raw.str "x".toList)] (Raw.str "x".toList)).2
      (fun hcontra => Raw.noConfusion
        (show Raw.str "x".toList = Raw.null from hcontra))).1⟩

/-- C4: for every scalar field kind, converting a typed value to its raw
encoding and back recovers the value exactly — except that for date-time
and time-of-day values the sub-second component is dropped by the round
trip (all other fields, including hours, minutes and whole seconds, are
preserved). -/
theorem C4_scalar_roundTrip :
    (∀ s : LChar, roundTrip FieldKind.text (PyVal.str s) = Except.ok (PyVal.str s)) ∧
    (∀ f : Float, roundTrip FieldKind.flt (PyVal.float f) = Except.ok (PyVal.float f)) ∧
    (∀ n : Int, roundTrip FieldKind.int (PyVal.int n) = Except.ok (PyVal.int n)) ∧
    (∀ n : Int, roundTrip FieldKind.lng (PyVal.int n) = Except.ok (PyVal.int n)) ∧
    (∀ b : Bool, roundTrip FieldKind.bool (PyVal.bool b) = Except.ok (PyVal.bool b)) ∧
    (∀ x : PyDecimal, x.WF →
      roundTrip FieldKind.dec (PyVal.decimal x) = Except.ok (PyVal.decimal x)) ∧
    (∀ d : PyDate, d.Valid →
      roundTrip FieldKind.date (PyVal.date d) = Except.ok (PyVal.date d)) ∧
    (∀ x : PyDateTime, x.Valid →
      roundTrip FieldKind.datetime (PyVal.datetime x) = Except.ok (PyVal.datetime
        (PyDateTime.mk x.year x.month x.day x.hour x.minute x.second 0))) ∧
    (∀ t : PyTime, t.Valid →
      roundTrip FieldKind.time (PyVal.time t) = Except.ok (PyVal.time
        (PyTime.mk t.hour t.minute t.second 0))) := by
  refine ⟨fun s => rfl, fun f => rfl, fun n => rfl, fun n => rfl, fun b => rfl,
    ?_, ?_, ?_, ?_⟩
  · intro x hx
    show FieldKind.toPython FieldKind.dec (Raw.str (decStr x)) =
      Except.ok (PyVal.decimal x)
    unfold FieldKind.toPython
    simp only [decParse_decStr hx]
  · intro d hd
    obtain ⟨h1, h2, h3, h4, h5, h6⟩ := hd
    show FieldKind.toPython FieldKind.date
      (Raw.str (fmtDate d.year d.month d.day)) = Except.ok (PyVal.date d)
    show (dateFromString (fmtDate d.year d.month d.day)).map PyVal.date =
      Except.ok (PyVal.date d)
    rw [dateFromString_fmtDate h1 h2 h3 h4 h5 h6]
    rfl
  · intro x hx
    obtain ⟨h1, h2, h3, h4, h5, h6, h7, h8, h9, h10⟩ := hx
    show (dateTimeFromString
        (fmtDT x.year x.month x.day x.hour x.minute x.second ++ ['Z'])).map
        PyVal.datetime =
      Except.ok (PyVal.datetime
        (PyDateTime.mk x.year x.month x.day x.hour x.minute x.second 0))
    rw [dateTimeFromString_fmtDT h1 h2 h3 h4 h5 h6 h7 h8 h9]
    rfl
  · intro t ht
    obtain ⟨h1, h2, h3, h4⟩ := ht
    show (timeFromString (fmtHMS t.hour t.minute t.second)).map PyVal.time =
      Except.ok (PyVal.time (PyTime.mk t.hour t.minute t.second 0))
    rw [timeFromString_fmtHMS h1 h2 h3]
    rfl

/-- C4 witness: the hypothesis-carrying conjuncts evaluated at concrete
representative values (a two-decimal-place decimal, a calendar date, a
date-time with microseconds, and a time with microseconds). -/
theorem C4_scalar_roundTrip_witness :
    roundTrip FieldKind.dec (PyVal.decimal (PyDecimal.mk false [1, 0, 0] (-2))) =
      Except.ok (PyVal.decimal (PyDecimal.mk false [1, 0, 0] (-2))) ∧
    roundTrip FieldKind.date (PyVal.date (PyDate.mk 2007 4 1)) =
      Except.ok (PyVal.date (PyDate.mk 2007 4 1)) ∧
    roundTrip FieldKind.datetime
        (PyVal.datetime (PyDateTime.mk 2007 4 1 15 30 0 9876)) =
      Except.ok (PyVal.datetime (PyDateTime.mk 2007 4 1 15 30 0 0)) ∧
    roundTrip FieldKind.time (PyVal.time (PyTime.mk 15 30 0 500000)) =
      Except.ok (PyVal.time (PyTime.mk 15 30 0 0)) :=
  ⟨C4_scalar_roundTrip.2.2.2.2.2.1 _
      ⟨by decide, by decide, by intro t ht; simp at ht⟩,
    C4_scalar_roundTrip.2.2.2.2.2.2.1 _ (by unfold PyDate.Valid daysInMonth; decide),
    C4_scalar_roundTrip.2.2.2.2.2.2.2.1 _
      (by unfold PyDateTime.Valid daysInMonth; decide),
    C4_scalar_roundTrip.2.2.2.2.2.2.2.2 _ (by unfold PyTime.Valid; decide)⟩

/-- C5: date-time and time-of-day serialisation truncates sub-second
precision — the raw string encodes the same hours, minutes and whole
seconds for every microsecond value, rounding never ticking the second; a
bare date serialises to midnight in the date-time encoding; a `struct_time`
goes through epoch normalisation before formatting, which on valid calendar
fields reproduces those fields. -/
theorem C5_toJson_truncates :
    (∀ x : PyDateTime, FieldKind.datetime.toJson (PyVal.datetime x) =
      Except.ok (Raw.str
        (fmtDT x.year x.month x.day x.hour x.minute x.second ++ ['Z']))) ∧
    (∀ d : PyDate, FieldKind.datetime.toJson (PyVal.date d) =
      Except.ok (Raw.str (fmtDT d.year d.month d.day 0 0 0 ++ ['Z']))) ∧
    (∀ t : PyStructTime, t.Valid → FieldKind.datetime.toJson (PyVal.structTime t) =
      Except.ok (Raw.str
        (fmtDT t.year t.month t.day t.hour t.minute t.second ++ ['Z']))) ∧
    (∀ t : PyTime, FieldKind.time.toJson (PyVal.time t) =
      Except.ok (Raw.str (fmtHMS t.hour t.minute t.second))) := by
  refine ⟨fun x => rfl, fun d => rfl, ?_, fun t => rfl⟩
  intro t ht
  obtain ⟨h1, h2, h3, h4, h5, h6, h7, h8, h9⟩ := ht
  have hd31 : t.day ≤ 31 := le_trans h6 (daysInMonth_le_31 _ _)
  show (if 1 ≤ t.year ∧ t.year ≤ 9999 ∧ 1 ≤ t.month ∧ t.month ≤ 12 then
      if 1 ≤ t.day ∧ t.day ≤ 31 ∧ t.hour ≤ 23 ∧ t.minute ≤ 59 ∧ t.second ≤ 61 then
        if (epochNorm t.year t.month t.day t.hour t.minute t.second).year ≤ 9999 then
          Except.ok (Raw.str
            (fmtDT (epochNorm t.year t.month t.day t.hour t.minute t.second).year
              (epochNorm t.year t.month t.day t.hour t.minute t.second).month
              (epochNorm t.year t.month t.day t.hour t.minute t.second).day
              (epochNorm t.year t.month t.day t.hour t.minute t.second).hour
              (epochNorm t.year t.month t.day t.hour t.minute t.second).minute
              (epochNorm t.year t.month t.day t.hour t.minute t.second).second ++ ['Z']))
        else Except.error PyErr.pyValueError
      else Except.error PyErr.notModeled
    else Except.error PyErr.pyValueError) =
    Except.ok (Raw.str (fmtDT t.year t.month t.day t.hour t.minute t.second ++ ['Z']))
  rw [epochNorm_valid h6 h7 h8 h9, if_pos ⟨h1, h2, h3, h4⟩,
    if_pos ⟨h5, hd31, h7, h8, (by omega : t.second ≤ 61)⟩, if_pos (by exact h2)]

/-- C5 witness: the struct_time conjunct evaluated at a concrete valid
struct_time (New Year's Eve, one second before midnight). -/
theorem C5_toJson_truncates_witness :
    FieldKind.datetime.toJson (PyVal.structTime (PyStructTime.mk 2007 12 31 23 59 59)) =
      Except.ok (Raw.str (fmtDT 2007 12 31 23 59 59 ++ ['Z'])) :=
  C5_toJson_truncates.2.2.1 _ (by unfold PyStructTime.Valid daysInMonth; decide)

/-- C6 counterexample: a malformed raw date-time literal containing a dot is
reported *after* microsecond stripping — the `ValueError` message
interpolates `'bogus'`, not the stored literal `'bogus.5Z'`, refuting the
claim that the error identifies the offending raw literal exactly as
stored. -/
theorem C6_counterexample :
    FieldKind.datetime.toPython (Raw.str "bogus.5Z".toList) =
      Except.error (PyErr.invalidDateTime "bogus".toList) ∧
    "bogus".toList ≠ "bogus.5Z".toList := by
  constructor
  · rfl
  · decide

/-- C6 amended: a malformed raw string raises a `ValueError` naming the
literal — exactly as stored for the date kind, but after the kind's
preprocessing for the date-time kind (truncation at the first dot, then
stripping of trailing `Z`) and the time kind (truncation at the first dot).
The error is raised only at typed access: wrapping performs no conversion
and leaves the wrapped document untouched, and a field's getter depends
only on its own key, so a record carrying a malformed value elsewhere can
be wrapped and its other fields read without error. -/
theorem C6_lazy_malformed_literal :
    (∀ (s : LChar) (e : PyErr), FieldKind.date.toPython (Raw.str s) = Except.error e →
      e = PyErr.invalidDate s) ∧
    (∀ (s : LChar) (e : PyErr),
      FieldKind.datetime.toPython (Raw.str s) = Except.error e →
      e = PyErr.invalidDateTime (rstripZ (takeUntilDot s))) ∧
    (∀ (s : LChar) (e : PyErr), FieldKind.time.toPython (Raw.str s) = Except.error e →
      e = PyErr.invalidTime (takeUntilDot s)) ∧
    (∀ (h : Heap) (fields : List CField) (r : Nat) (hp : Heap × SchemaInst),
      r < h.length → schemaWrap h fields r = Except.ok hp →
      hp.1[r]? = h[r]? ∧ hp.2.dataRef = r) ∧
    (∀ (f : CField) (d1 d2 : RawDoc), pyGetRaw d1 f.name = pyGetRaw d2 f.name →
      fieldGet f d1 = fieldGet f d2) := by
  refine ⟨?_, ?_, ?_, ?_, ?_⟩
  · intro s e h
    replace h : (dateFromString s).map PyVal.date = Except.error e := h
    cases hds : dateFromString s with
    | error e2 =>
      rw [hds] at h
      injection h with h2
      rw [← h2, dateFromString_error hds]
    | ok d => rw [hds] at h; exact absurd h (by simp [Except.map])
  · intro s e h
    replace h : (dateTimeFromString s).map PyVal.datetime = Except.error e := h
    cases hds : dateTimeFromString s with
    | error e2 =>
      rw [hds] at h
      injection h with h2
      rw [← h2, dateTimeFromString_error hds]
    | ok d => rw [hds] at h; exact absurd h (by simp [Except.map])
  · intro s e h
    replace h : (timeFromString s).map PyVal.time = Except.error e := h
    cases hds : timeFromString s with
    | error e2 =>
      rw [hds] at h
      injection h with h2
      rw [← h2, timeFromString_error hds]
    | ok d => rw [hds] at h; exact absurd h (by simp [Except.map])
  · intro h fields r hp hr hw
    unfold schemaWrap at hw
    split at hw
    · injection hw with hw2
      rw [← hw2]
      refine ⟨?_, rfl⟩
      rw [List.getElem?_append]
      simp [hr]
    · exact absurd hw (by simp)
  · intro f d1 d2 h
    unfold fieldGet
    rw [h]

/-- C6 witness: the amended statement evaluated concretely — a bad date
literal is reported verbatim, wrapping an existing document over a
one-object heap leaves it untouched, and a getter result is unchanged when
only unrelated keys differ. -/
theorem C6_lazy_malformed_literal_witness :
    PyErr.invalidDate "x".toList = PyErr.invalidDate "x".toList ∧
    ([HObj.dict [], HObj.dict []] : Heap)[(0 : Nat)]? =
      ([HObj.dict []] : Heap)[(0 : Nat)]? ∧
    fieldGet ageField [("other".toList, Raw.str "junk".toList)] = fieldGet ageField [] :=
  ⟨C6_lazy_malformed_literal.1 "x".toList (PyErr.invalidDate "x".toList) rfl,
    (C6_lazy_malformed_literal.2.2.2.1 [HObj.dict []] [] 0
      ([HObj.dict [], HObj.dict []], SchemaInst.mk 0) (by decide) rfl).1,
    C6_lazy_malformed_literal.2.2.2.2 ageField
      [("other".toList, Raw.str "junk".toList)] [] rfl⟩

/-- C7: `wrap(raw)` aliases — the instance's backing store is the reference
passed in, `unwrap` returns that same live reference, the wrapped document
is not modified (no defaulting is applied to it: the constructor's
defaulting goes into a throwaway dict pushed onto the heap), and a raw
write through one wrapper of the document is observed by reading through
another wrapper of the same document. -/
theorem C7_wrap_aliases (h : Heap) (fields : List CField) (r : Nat) (kvs : RawDoc)
    (hr : h[r]? = some (HObj.dict kvs)) (d0 : RawDoc)
    (rest : List (LChar × PyVal))
    (hinit : schemaInit fields [] = Except.ok (d0, rest)) :
    schemaWrap h fields r = Except.ok (h ++ [HObj.dict d0], SchemaInst.mk r) ∧
    schemaUnwrap (SchemaInst.mk r) = r ∧
    (h ++ [HObj.dict d0])[r]? = some (HObj.dict kvs) ∧
    (∀ k v, instGetItem
      (instSetItem (h ++ [HObj.dict d0]) (SchemaInst.mk r) k v)
      (SchemaInst.mk r) k = some v) := by
  have hlt : r < h.length := by
    by_contra hc
    have hnone : h[r]? = Option.none :=
      List.getElem?_eq_none (show h.length ≤ r by omega)
    rw [hnone] at hr
    exact absurd hr (by simp)
  have happ : (h ++ [HObj.dict d0])[r]? = some (HObj.dict kvs) := by
    rw [List.getElem?_append]
    simp [hlt, hr]
  refine ⟨?_, rfl, happ, ?_⟩
  · unfold schemaWrap
    rw [hinit]
  · intro k v
    unfold instSetItem
    simp only [happ]
    unfold instGetItem
    have hlt2 : r < (h ++ [HObj.dict d0]).length := by
      simp only [List.length_append, List.length_singleton]
      omega
    simp only [List.getElem?_set_self hlt2]
    rw [dictGet_dictSet_self]

/-- C7 witness: wrapping the one existing document of a singleton heap with
a field-less schema, writing a key through one wrapper and reading it
through the other. -/
theorem C7_wrap_aliases_witness :
    schemaWrap [HObj.dict []] [] 0 =
      Except.ok ([HObj.dict [], HObj.dict []], SchemaInst.mk 0) ∧
    instGetItem
      (instSetItem [HObj.dict [], HObj.dict []] (SchemaInst.mk 0)
        "k".toList (Raw.int 7))
      (SchemaInst.mk 0) "k".toList = some (Raw.int 7) := by
  have h := C7_wrap_aliases [HObj.dict []] [] 0 [] rfl [] [] rfl
  exact ⟨h.1, h.2.2.2 "k".toList (Raw.int 7)⟩

/-- C8: the field registry is the ancestors' merged tables overlaid with the
type's own declarations — an own declaration (attribute names being unique
in a class body) replaces any inherited entry under its attribute name,
with a falsy field name resolved to the attribute name; attributes not
declared on the type itself resolve to the merged ancestor tables; a field
declared without a name adopts the attribute name, one with a nonempty
explicit name keeps it. -/
theorem C8_registry (baseTables : List (List (LChar × FieldDecl)))
    (decls : List (LChar × FieldDecl)) (attr : LChar) :
    ((decls.map Prod.fst).Nodup →
      ∀ f, dictGet attr decls = some f →
        dictGet attr (schemaMetaFields baseTables decls) =
          some (resolveFieldName attr f)) ∧
    (dictGet attr decls = Option.none →
      dictGet attr (schemaMetaFields baseTables decls) =
        dictGet attr (baseTables.foldl dictUpdate [])) ∧
    (∀ t, resolveFieldName attr (FieldDecl.mk Option.none t) =
      FieldDecl.mk (some attr) t) ∧
    (∀ s t, s ≠ [] → resolveFieldName attr (FieldDecl.mk (some s) t) =
      FieldDecl.mk (some s) t) := by
  refine ⟨?_, ?_, ?_, ?_⟩
  · intro hnd f hf
    exact metaFold_own hnd hf
  · intro hnone
    exact metaFold_ne (dictGet_none_keys hnone)
  · intro t
    rfl
  · intro s t hs
    unfold resolveFieldName falsyName
    rw [if_neg (by simpa using hs)]

/-- C8 witness: a subclass overriding `a` (adopting the attribute name),
inheriting `b`, and a field with an explicit name keeping it. -/
theorem C8_registry_witness :
    dictGet "a".toList (schemaMetaFields
        [[("a".toList, FieldDecl.mk (some "a".toList) 0),
          ("b".toList, FieldDecl.mk (some "b".toList) 1)]]
        [("a".toList, FieldDecl.mk Option.none 2)]) =
      some (FieldDecl.mk (some "a".toList) 2) ∧
    dictGet "b".toList (schemaMetaFields
        [[("a".toList, FieldDecl.mk (some "a".toList) 0),
          ("b".toList, FieldDecl.mk (some "b".toList) 1)]]
        [("a".toList, FieldDecl.mk Option.none 2)]) =
      some (FieldDecl.mk (some "b".toList) 1) ∧
    resolveFieldName "attr".toList (FieldDecl.mk (some "explicit".toList) 3) =
      FieldDecl.mk (some "explicit".toList) 3 := by
  refine ⟨?_, ?_, ?_⟩
  · have h := (C8_registry
      [[("a".toList, FieldDecl.mk (some "a".toList) 0),
        ("b".toList, FieldDecl.mk (some "b".toList) 1)]]
      [("a".toList, FieldDecl.mk Option.none 2)] "a".toList).1
      (by decide) (FieldDecl.mk Option.none 2) rfl
    exact h
  · have h := (C8_registry
      [[("a".toList, FieldDecl.mk (some "a".toList) 0),
        ("b".toList, FieldDecl.mk (some "b".toList) 1)]]
      [("a".toList, FieldDecl.mk Option.none 2)] "b".toList).2.1 rfl
    rw [h]
    rfl
  · exact (C8_registry [] [] "attr".toList).2.2.2 "explicit".toList 3 (by decide)

/-- C9: `Schema._to_json` ignores the value passed to it — for every
instance and every pair of arguments it returns the instance's own live
backing store, `unwrap()`. -/
theorem C9_schema_toJson_ignores_value (i : SchemaInst) (v v2 : PyVal) :
    schemaToJsonMethod i v = schemaUnwrap i ∧
    schemaToJsonMethod i v = schemaToJsonMethod i v2 :=
  ⟨rfl, rfl⟩

/-- C10: declaring a `ListField`/`DictField` without a default allocates one
shared empty raw object at declaration time; on every instance whose key is
absent the typed getter returns that very object — the same reference for
all such instances — without any `to_python` conversion (the result is the
plain raw list or mapping, never a proxy or a wrapped schema). -/
theorem C10_shared_raw_defaults (h : Heap) (nm : LChar) (elem : FieldKind) :
    listFieldInit h (some nm) Option.none elem =
      (h ++ [HObj.list []], ListFieldObj.mk (some nm) h.length elem) ∧
    (h ++ [HObj.list []])[h.length]? = some (HObj.list []) ∧
    (∀ d : RawDoc, dictGet nm d = Option.none →
      listFieldGet (ListFieldObj.mk (some nm) h.length elem) d =
        ListGet.defaultObj h.length) ∧
    (∀ (raw : Raw) (k : FieldKind) (r : Nat),
      ListGet.defaultObj r ≠ ListGet.proxy raw k) ∧
    dictFieldInit h (some nm) Option.none =
      (h ++ [HObj.dict []], DictFieldObj.mk (some nm) h.length) ∧
    (h ++ [HObj.dict []])[h.length]? = some (HObj.dict []) ∧
    (∀ d : RawDoc, dictGet nm d = Option.none →
      dictFieldGet (DictFieldObj.mk (some nm) h.length) d =
        DictGet.defaultObj h.length) ∧
    (∀ (raw : Raw) (r : Nat), DictGet.defaultObj r ≠ DictGet.wrapped raw) := by
  refine ⟨rfl, List.getElem?_concat_length _ _, ?_, ?_, rfl,
    List.getElem?_concat_length _ _, ?_, ?_⟩
  · intro d hd
    unfold listFieldGet
    simp only [hd]
  · intro raw k r
    simp
  · intro d hd
    unfold dictFieldGet
    simp only [hd]
  · intro raw r
    simp

/-- C10 witness: a list field and a dict field declared over an empty heap;
two distinct instances with the key absent both receive the default object
allocated at reference 0. -/
theorem C10_shared_raw_defaults_witness :
    listFieldGet (ListFieldObj.mk (some "tags".toList) 0 FieldKind.text) [] =
      ListGet.defaultObj 0 ∧
    listFieldGet (ListFieldObj.mk (some "tags".toList) 0 FieldKind.text)
        [("other".toList, Raw.int 1)] = ListGet.defaultObj 0 ∧
    dictFieldGet (DictFieldObj.mk (some "author".toList) 0) [] =
      DictGet.defaultObj 0 :=
  ⟨(C10_shared_raw_defaults [] "tags".toList FieldKind.text).2.2.1 [] rfl,
    (C10_shared_raw_defaults [] "tags".toList FieldKind.text).2.2.1
      [("other".toList, Raw.int 1)] rfl,
    (C10_shared_raw_defaults [] "author".toList FieldKind.text).2.2.2.2.2.2.1 [] rfl⟩
